import Mathlib

/-!
Verification development for the receipt-scanner backend.

Embedded components, each translated from the Go source:
* the AI-response parsing pipeline of `internal/openrouter/client_parse.go`
  (`parseOpenRouterResponse` content handling and `extractJSONWithRegex`);
* the totals portion of the legacy OCR text parser (`parseInvoiceText`,
  `extractSubtotal`, `extractTax`, `extractTotal`, `extractAmount`);
* the worker-pool admission gate of `internal/service/receipt_service.go`
  (`ScanReceipt`).

Modelling conventions: Go strings are `List Char`; Go `float64` scalars are
exact rationals (`ℚ`), so decimal literals and sums are exact; Go regexp
searches are embedded operationally as leftmost-first scans that reproduce
the concrete patterns used by the source (each matcher's doc comment names
the pattern it implements); `encoding/json` decoding is embedded as a strict
JSON reader (`parseJsonValue`) plus a struct binder mirroring Go's
field-matching rules (unknown fields ignored, `null` is a no-op, type
mismatch fails the whole decode).
-/

namespace ReceiptScanner

/-- Whitespace class of Go's regexp `\s`, i.e. `[\t\n\f\r ]`. -/
def isGoWs (c : Char) : Bool :=
  c = ' ' || c = '\t' || c = '\n' || c = '\x0c' || c = '\r'

/-- Whitespace accepted by Go's `encoding/json` scanner (space, tab, newline, carriage return). -/
def isJsonWs (c : Char) : Bool :=
  c = ' ' || c = '\t' || c = '\n' || c = '\r'

/-- ASCII decimal digit test. -/
def isDigitChar (c : Char) : Bool :=
  '0' ≤ c && c ≤ '9'

/-- ASCII lower-casing, used for the case-insensitive `(?i)` regexes and for
Go's case-insensitive JSON field-name matching. -/
def lowerAscii (c : Char) : Char :=
  if 'A' ≤ c && c ≤ 'Z' then Char.ofNat (c.toNat + 32) else c

/-- Numeric value of a decimal digit character. -/
def digitVal (c : Char) : Nat := c.toNat - '0'.toNat

/-- Value of a list of decimal digit characters, most significant first. -/
def digitsToNat (ds : List Char) : Nat :=
  ds.foldl (fun acc c => acc * 10 + digitVal c) 0

/-- Rational value of an unsigned decimal literal `intPart.fracPart`
(the shape captured by `strconv.ParseFloat` on the regex captures). -/
def decimalToRat (intPart fracPart : List Char) : ℚ :=
  (digitsToNat intPart : ℚ) + (digitsToNat fracPart : ℚ) / (10 ^ fracPart.length : ℚ)

/-- Substring test: does `pat` occur contiguously inside `cs`? -/
def containsSub (pat : List Char) : List Char → Bool
  | [] => pat.isPrefixOf []
  | c :: rest => pat.isPrefixOf (c :: rest) || containsSub pat rest

/-- JSON values, as produced by the strict JSON reader. -/
inductive Json where
  | null : Json
  | bool (b : Bool) : Json
  | num (q : ℚ) : Json
  | str (s : List Char) : Json
  | arr (elems : List Json) : Json
  | obj (members : List (List Char × Json)) : Json

/-- Decode the body of a JSON string literal (after the opening quote):
returns the decoded characters and the input remaining after the closing
quote. Mirrors Go's scanner: control characters below `0x20` are rejected,
the simple escapes and `\uXXXX` are accepted, and a `\uXXXX` that is not a
valid scalar value decodes to U+FFFD (Go's replacement-character behavior). -/
def parseStringBody : List Char → Option (List Char × List Char)
  | [] => none
  | '"' :: rest => some ([], rest)
  | '\\' :: esc => match esc with
    | '"' :: rest => (parseStringBody rest).map (fun p => ('"' :: p.1, p.2))
    | '\\' :: rest => (parseStringBody rest).map (fun p => ('\\' :: p.1, p.2))
    | '/' :: rest => (parseStringBody rest).map (fun p => ('/' :: p.1, p.2))
    | 'b' :: rest => (parseStringBody rest).map (fun p => ('\x08' :: p.1, p.2))
    | 'f' :: rest => (parseStringBody rest).map (fun p => ('\x0c' :: p.1, p.2))
    | 'n' :: rest => (parseStringBody rest).map (fun p => ('\n' :: p.1, p.2))
    | 'r' :: rest => (parseStringBody rest).map (fun p => ('\r' :: p.1, p.2))
    | 't' :: rest => (parseStringBody rest).map (fun p => ('\t' :: p.1, p.2))
    | 'u' :: h1 :: h2 :: h3 :: h4 :: rest =>
      let hexVal : Char → Option Nat := fun c =>
        if isDigitChar c then some (digitVal c)
        else if 'a' ≤ c && c ≤ 'f' then some (c.toNat - 'a'.toNat + 10)
        else if 'A' ≤ c && c ≤ 'F' then some (c.toNat - 'A'.toNat + 10)
        else none
      match hexVal h1, hexVal h2, hexVal h3, hexVal h4 with
      | some a, some b, some c, some d =>
        let n := ((a * 16 + b) * 16 + c) * 16 + d
        let ch := if h : n.isValidChar then Char.ofNatAux n h else '�'
        (parseStringBody rest).map (fun p => (ch :: p.1, p.2))
      | _, _, _, _ => none
    | _ => none
  | c :: rest =>
    if c.toNat < 0x20 then none
    else (parseStringBody rest).map (fun p => (c :: p.1, p.2))

/-- Decode a JSON number starting at the head of the input (strict JSON
grammar: optional minus, integer part without leading zeros, optional
fraction, optional exponent). Returns its exact rational value and the
remaining input. -/
def parseNumber (cs : List Char) : Option (ℚ × List Char) :=
  let (neg, cs1) := match cs with
    | '-' :: rest => (true, rest)
    | _ => (false, cs)
  let intDigits := cs1.takeWhile isDigitChar
  let afterInt := cs1.dropWhile isDigitChar
  let intOk : Bool := match intDigits with
    | [] => false
    | ['0'] => true
    | '0' :: _ :: _ => false
    | _ => true
  if intOk then
    let (fracDigits, afterFrac) := match afterInt with
      | '.' :: rest =>
        let fd := rest.takeWhile isDigitChar
        (fd, rest.dropWhile isDigitChar)
      | _ => ([], afterInt)
    let fracFailed : Bool := match afterInt with
      | '.' :: rest => (rest.takeWhile isDigitChar).isEmpty
      | _ => false
    if fracFailed then none
    else
      let expPart : Option (Bool × List Char × List Char) := match afterFrac with
        | 'e' :: rest | 'E' :: rest =>
          let (expNeg, rest2) := match rest with
            | '+' :: r => (false, r)
            | '-' :: r => (true, r)
            | _ => (false, rest)
          let ed := rest2.takeWhile isDigitChar
          if ed.isEmpty then none else some (expNeg, ed, rest2.dropWhile isDigitChar)
        | _ => some (false, [], afterFrac)
      match expPart with
      | none => none
      | some (expNeg, expDigits, remaining) =>
        let base : ℚ := decimalToRat intDigits fracDigits
        let signed : ℚ := if neg then -base else base
        let e := digitsToNat expDigits
        let value : ℚ := if expNeg then signed / (10 ^ e : ℚ) else signed * (10 ^ e : ℚ)
        some (value, remaining)
  else none

mutual

/-- Strict JSON value reader (fueled recursive descent over the input
characters), mirroring what Go's `encoding/json` syntax scanner accepts. -/
def parseJsonValue : Nat → List Char → Option (Json × List Char)
  | 0, _ => none
  | fuel + 1, cs =>
    match cs.dropWhile isJsonWs with
    | [] => none
    | '{' :: rest =>
      (match (rest.dropWhile isJsonWs) with
       | '}' :: r2 => some (Json.obj [], r2)
       | _ => (parseJsonMembers fuel rest).map (fun p => (Json.obj p.1, p.2)))
    | '[' :: rest =>
      (match (rest.dropWhile isJsonWs) with
       | ']' :: r2 => some (Json.arr [], r2)
       | _ => (parseJsonElems fuel rest).map (fun p => (Json.arr p.1, p.2)))
    | '"' :: rest => (parseStringBody rest).map (fun p => (Json.str p.1, p.2))
    | 't' :: 'r' :: 'u' :: 'e' :: rest => some (Json.bool true, rest)
    | 'f' :: 'a' :: 'l' :: 's' :: 'e' :: rest => some (Json.bool false, rest)
    | 'n' :: 'u' :: 'l' :: 'l' :: rest => some (Json.null, rest)
    | c :: rest =>
      if c = '-' || isDigitChar c then
        (parseNumber (c :: rest)).map (fun p => (Json.num p.1, p.2))
      else none

/-- Members of a JSON object after the opening brace (at least one member). -/
def parseJsonMembers : Nat → List Char → Option (List (List Char × Json) × List Char)
  | 0, _ => none
  | fuel + 1, cs =>
    match cs.dropWhile isJsonWs with
    | '"' :: rest =>
      match parseStringBody rest with
      | none => none
      | some (key, afterKey) =>
        match afterKey.dropWhile isJsonWs with
        | ':' :: afterColon =>
          match parseJsonValue fuel afterColon with
          | none => none
          | some (v, afterVal) =>
            match afterVal.dropWhile isJsonWs with
            | ',' :: afterComma =>
              (parseJsonMembers fuel afterComma).map (fun p => ((key, v) :: p.1, p.2))
            | '}' :: afterBrace => some ([(key, v)], afterBrace)
            | _ => none
        | _ => none
    | _ => none

/-- Elements of a JSON array after the opening bracket (at least one element). -/
def parseJsonElems : Nat → List Char → Option (List Json × List Char)
  | 0, _ => none
  | fuel + 1, cs =>
    match parseJsonValue fuel cs with
    | none => none
    | some (v, afterVal) =>
      match afterVal.dropWhile isJsonWs with
      | ',' :: afterComma => (parseJsonElems fuel afterComma).map (fun p => (v :: p.1, p.2))
      | ']' :: afterBracket => some ([v], afterBracket)
      | _ => none

end

/-- Fuel that certainly suffices to read any JSON value of the given input:
every recursive call either consumes input or descends into a strictly
smaller remainder. -/
def jsonFuel (cs : List Char) : Nat := (cs.length + 2) * (cs.length + 2)

/-- Read one complete JSON text: a single value with only whitespace after
it, as `json.Unmarshal` requires. -/
def parseJson (cs : List Char) : Option Json :=
  match parseJsonValue (jsonFuel cs) cs with
  | none => none
  | some (v, rest) => if (rest.dropWhile isJsonWs).isEmpty then some v else none

/-- A calendar date, the result of Go's `time.Parse("2006-01-02", s)`
(zero `time.Time` is modelled as `Option.none` at the invoice level). -/
structure Date where
  year : Nat
  month : Nat
  day : Nat
  deriving DecidableEq

/-- Number of days in a month, with the Gregorian leap-year rule used by Go's
`time` package for date validation. -/
def daysInMonth (y m : Nat) : Nat :=
  if m = 2 then
    if y % 4 = 0 && (y % 100 ≠ 0 || y % 400 = 0) then 29 else 28
  else if m = 4 || m = 6 || m = 9 || m = 11 then 30
  else 31

/-- `time.Parse("2006-01-02", s)`: exactly `dddd-dd-dd` with all decimal
digits, and the month/day validated against the calendar. -/
def parseDateYMD (s : List Char) : Option Date :=
  match s with
  | [y1, y2, y3, y4, '-', m1, m2, '-', d1, d2] =>
    if [y1, y2, y3, y4, m1, m2, d1, d2].all isDigitChar then
      let y := digitsToNat [y1, y2, y3, y4]
      let m := digitsToNat [m1, m2]
      let d := digitsToNat [d1, d2]
      if 1 ≤ m && m ≤ 12 && 1 ≤ d && d ≤ daysInMonth y m then
        some { year := y, month := m, day := d }
      else none
    else none
  | _ => none

/-- One line item of the domain invoice (`internal/domain/invoice.go`). -/
structure LineItem where
  description : List Char := []
  details : List (List Char) := []
  quantity : ℚ := 0
  unitPrice : ℚ := 0
  total : ℚ := 0
  deriving DecidableEq

/-- The domain invoice (`internal/domain/invoice.go`); `domain.NewInvoice()`
is the default value. A zero `time.Time` date is `none`. -/
structure Invoice where
  vendorName : List Char := []
  invoiceNumber : List Char := []
  invoiceDate : Option Date := none
  dueDate : Option Date := none
  items : List LineItem := []
  subtotal : ℚ := 0
  taxRatePercent : ℚ := 0
  taxAmount : ℚ := 0
  discount : ℚ := 0
  totalDue : ℚ := 0
  deriving DecidableEq

/-- The anonymous `invoiceDTO` item struct of `client_parse.go` (fields
`description`, `details`, `quantity`, `unit_price`, `total`). -/
structure ItemDTO where
  description : List Char := []
  details : List (List Char) := []
  quantity : ℚ := 0
  unitPrice : ℚ := 0
  total : ℚ := 0
  deriving DecidableEq

/-- The anonymous `invoiceDTO` struct that both structural decode stages of
`client_parse.go` unmarshal into. -/
structure InvoiceDTO where
  vendorName : List Char := []
  invoiceNumber : List Char := []
  invoiceDate : List Char := []
  dueDate : List Char := []
  subtotal : ℚ := 0
  taxRatePercent : ℚ := 0
  taxAmount : ℚ := 0
  discount : ℚ := 0
  totalDue : ℚ := 0
  items : List ItemDTO := []
  deriving DecidableEq

/-- Go JSON field-name matching: the struct tags here are all lower-case and
pairwise distinct, so Go's exact-then-case-insensitive rule reduces to
ASCII-case-insensitive equality with the tag. -/
def keyIs (key : List Char) (tag : List Char) : Bool :=
  key.map lowerAscii = tag

/-- Bind one member of a JSON object into an `ItemDTO`, following
`encoding/json`: `null` is a no-op, unknown keys are ignored, and a type
mismatch fails the whole decode. -/
def assignItemField (it : ItemDTO) (key : List Char) (v : Json) : Option ItemDTO :=
  if keyIs key "description".data then
    match v with
    | Json.str s => some { it with description := s }
    | Json.null => some it
    | _ => none
  else if keyIs key "details".data then
    match v with
    | Json.arr elems =>
      let decodeDetail : Json → Option (List Char) := fun e =>
        match e with
        | Json.str s => some s
        | Json.null => some []
        | _ => none
      (elems.mapM decodeDetail).map (fun ds => { it with details := ds })
    | Json.null => some it
    | _ => none
  else if keyIs key "quantity".data then
    match v with
    | Json.num q => some { it with quantity := q }
    | Json.null => some it
    | _ => none
  else if keyIs key "unit_price".data then
    match v with
    | Json.num q => some { it with unitPrice := q }
    | Json.null => some it
    | _ => none
  else if keyIs key "total".data then
    match v with
    | Json.num q => some { it with total := q }
    | Json.null => some it
    | _ => none
  else some it

/-- Unmarshal one element of the `items` array. -/
def itemOfJson : Json → Option ItemDTO
  | Json.obj members => members.foldlM (fun it kv => assignItemField it kv.1 kv.2) {}
  | Json.null => some {}
  | _ => none

/-- Bind one member of the top-level JSON object into the `invoiceDTO`. -/
def assignInvoiceField (d : InvoiceDTO) (key : List Char) (v : Json) : Option InvoiceDTO :=
  if keyIs key "vendor_name".data then
    match v with
    | Json.str s => some { d with vendorName := s }
    | Json.null => some d
    | _ => none
  else if keyIs key "invoice_number".data then
    match v with
    | Json.str s => some { d with invoiceNumber := s }
    | Json.null => some d
    | _ => none
  else if keyIs key "invoice_date".data then
    match v with
    | Json.str s => some { d with invoiceDate := s }
    | Json.null => some d
    | _ => none
  else if keyIs key "due_date".data then
    match v with
    | Json.str s => some { d with dueDate := s }
    | Json.null => some d
    | _ => none
  else if keyIs key "subtotal".data then
    match v with
    | Json.num q => some { d with subtotal := q }
    | Json.null => some d
    | _ => none
  else if keyIs key "tax_rate_percent".data then
    match v with
    | Json.num q => some { d with taxRatePercent := q }
    | Json.null => some d
    | _ => none
  else if keyIs key "tax_amount".data then
    match v with
    | Json.num q => some { d with taxAmount := q }
    | Json.null => some d
    | _ => none
  else if keyIs key "discount".data then
    match v with
    | Json.num q => some { d with discount := q }
    | Json.null => some d
    | _ => none
  else if keyIs key "total_due".data then
    match v with
    | Json.num q => some { d with totalDue := q }
    | Json.null => some d
    | _ => none
  else if keyIs key "items".data then
    match v with
    | Json.arr elems => (elems.mapM itemOfJson).map (fun its => { d with items := its })
    | Json.null => some d
    | _ => none
  else some d

/-- Unmarshal a JSON value into the `invoiceDTO` struct: the value must be an
object (or `null`, which Go leaves as the zero struct). -/
def dtoOfJson : Json → Option InvoiceDTO
  | Json.obj members => members.foldlM (fun d kv => assignInvoiceField d kv.1 kv.2) {}
  | Json.null => some {}
  | _ => none

/-- `json.Unmarshal([]byte(content), &invoiceDTO)`: strict JSON syntax plus
struct binding; `none` models a non-nil error. -/
def decodeInvoiceDTO (cs : List Char) : Option InvoiceDTO :=
  (parseJson cs).bind dtoOfJson

/-- The invoice-assembly block that both structural decode stages of
`client_parse.go` run on a successfully decoded DTO (lines 71–107 and
149–185 are textually identical): copy the scalar fields, parse the two
dates (keeping the zero date when parsing fails or the field is empty), and
append every decoded item unconditionally via `AddLineItem`. -/
def buildInvoice (dto : InvoiceDTO) : Invoice :=
  { vendorName := dto.vendorName
    invoiceNumber := dto.invoiceNumber
    invoiceDate := if dto.invoiceDate.isEmpty then none else parseDateYMD dto.invoiceDate
    dueDate := if dto.dueDate.isEmpty then none else parseDateYMD dto.dueDate
    subtotal := dto.subtotal
    taxRatePercent := dto.taxRatePercent
    taxAmount := dto.taxAmount
    discount := dto.discount
    totalDue := dto.totalDue
    items := dto.items.map (fun it =>
      { description := it.description
        details := it.details
        quantity := it.quantity
        unitPrice := it.unitPrice
        total := it.total }) }

/-- Consume an exact literal prefix. -/
def matchLit : List Char → List Char → Option (List Char)
  | [], cs => some cs
  | _, [] => none
  | p :: ps, c :: cs => if c = p then matchLit ps cs else none

/-- Trim Go-regexp whitespace from both ends. -/
def trimGoWs (cs : List Char) : List Char :=
  ((cs.dropWhile isGoWs).reverse.dropWhile isGoWs).reverse

/-- Attempt the pattern `"key"\s*:\s*"([^"]+)"` at the head of the input;
returns the capture (which is necessarily non-empty). -/
def matchStrFieldAt (key : List Char) (cs : List Char) : Option (List Char) :=
  match matchLit ('"' :: key ++ ['"']) cs with
  | none => none
  | some afterKey =>
    match (afterKey.dropWhile isGoWs) with
    | ':' :: afterColon =>
      match afterColon.dropWhile isGoWs with
      | '"' :: body =>
        match body.takeWhile (fun c => c ≠ '"') with
        | [] => none
        | d :: ds =>
          match body.dropWhile (fun c => c ≠ '"') with
          | '"' :: _ => some (d :: ds)
          | _ => none
      | _ => none
    | _ => none

/-- `regexp.FindStringSubmatch` for the string-field patterns: leftmost
occurrence wins, scanning start positions left to right. -/
def findStrField (key : List Char) : List Char → Option (List Char)
  | [] => none
  | c :: rest =>
    match matchStrFieldAt key (c :: rest) with
    | some cap => some cap
    | none => findStrField key rest

/-- Attempt the pattern `"key"\s*:\s*(\d+\.?\d*)` at the head of the input;
the capture is fed through `strconv.ParseFloat`, which cannot fail on this
shape, so the parsed rational is returned directly. -/
def matchNumFieldAt (key : List Char) (cs : List Char) : Option ℚ :=
  match matchLit ('"' :: key ++ ['"']) cs with
  | none => none
  | some afterKey =>
    match afterKey.dropWhile isGoWs with
    | ':' :: afterColon =>
      match (afterColon.dropWhile isGoWs).takeWhile isDigitChar with
      | [] => none
      | d :: ds =>
        some (decimalToRat (d :: ds)
          (match (afterColon.dropWhile isGoWs).dropWhile isDigitChar with
           | '.' :: r => r.takeWhile isDigitChar
           | _ => []))
    | _ => none

/-- Leftmost-occurrence search for the numeric-field patterns. -/
def findNumField (key : List Char) : List Char → Option ℚ
  | [] => none
  | c :: rest =>
    match matchNumFieldAt key (c :: rest) with
    | some q => some q
    | none => findNumField key rest

/-- Attempt the pattern `"key"\s*:\s*\[\s*([\s\S]*?)\s*\]` at the head of
the input. The lazy inner capture together with the greedy `\s*` borders
means: the match ends at the first `]` after the `[`, and the capture is the
text strictly between, trimmed of whitespace — so the capture can never
contain a `]`. -/
def matchBracketFieldAt (key : List Char) (cs : List Char) : Option (List Char) :=
  match matchLit ('"' :: key ++ ['"']) cs with
  | none => none
  | some afterKey =>
    match afterKey.dropWhile isGoWs with
    | ':' :: afterColon =>
      match afterColon.dropWhile isGoWs with
      | '[' :: body =>
        match body.dropWhile (fun c => c ≠ ']') with
        | [] => none
        | _ :: _ => some (trimGoWs (body.takeWhile (fun c => c ≠ ']')))
      | _ => none
    | _ => none

/-- Leftmost-occurrence search for the bracketed-array patterns
(`"items"` and `"details"`). -/
def findBracketField (key : List Char) : List Char → Option (List Char)
  | [] => none
  | c :: rest =>
    match matchBracketFieldAt key (c :: rest) with
    | some inner => some inner
    | none => findBracketField key rest

/-- `FindAllStringSubmatch` of `\{\s*([\s\S]*?)\s*\}` (full matches): each
match runs from a `{` to the first `}` after it, and scanning resumes after
the consumed `}`. -/
def splitBraceObjects : Nat → List Char → List (List Char)
  | 0, _ => []
  | _ + 1, [] => []
  | fuel + 1, c :: rest =>
    if c = '{' then
      match rest.dropWhile (fun x => x ≠ '}') with
      | '}' :: after => ('{' :: rest.takeWhile (fun x => x ≠ '}') ++ ['}']) :: splitBraceObjects fuel after
      | _ => []
    else splitBraceObjects fuel rest

/-- `FindAllStringSubmatch` of `"([^"]+)"`: all non-empty quoted spans,
leftmost-first and non-overlapping; a failed attempt (an immediately closed
quote pair) advances the scan by one character, exactly as the regexp
engine does. -/
def findAllQuoted : Nat → List Char → List (List Char)
  | 0, _ => []
  | _ + 1, [] => []
  | fuel + 1, c :: rest =>
    if c = '"' then
      match rest.dropWhile (fun x => x ≠ '"') with
      | '"' :: after =>
        let cap := rest.takeWhile (fun x => x ≠ '"')
        if cap.isEmpty then findAllQuoted fuel rest
        else cap :: findAllQuoted fuel after
      | _ => []
    else findAllQuoted fuel rest

/-- Per-candidate line-item extraction of `extractJSONWithRegex` (lines
276–327): `description`, `quantity`, `unit_price`, `total` and the nested
`details` list are each recovered independently from the candidate text. -/
def parseItemCandidate (itemContent : List Char) : LineItem :=
  { description := (findStrField "description".data itemContent).getD []
    quantity := (findNumField "quantity".data itemContent).getD 0
    unitPrice := (findNumField "unit_price".data itemContent).getD 0
    total := (findNumField "total".data itemContent).getD 0
    details :=
      match findBracketField "details".data itemContent with
      | some detailsContent => findAllQuoted (detailsContent.length + 1) detailsContent
      | none => [] }

/-- The line-item part of the field-level recovery (lines 261–335): isolate
the `"items"` array span, split it into brace-delimited candidates, extract
each candidate, and keep only items with a non-empty description. -/
def recoverItems (cs : List Char) : List LineItem :=
  match findBracketField "items".data cs with
  | some itemsContent =>
    (splitBraceObjects (itemsContent.length + 1) itemsContent).foldl
      (fun acc cand =>
        let li := parseItemCandidate cand
        if li.description.isEmpty then acc else acc ++ [li])
      []
  | none => []

/-- The whole field-level regex recovery assembly of `extractJSONWithRegex`
(lines 191–335): every scalar field and the items are recovered
independently from the (fence-stripped) text, starting from
`domain.NewInvoice()` defaults. -/
def recoverInvoice (cs : List Char) : Invoice :=
  { vendorName := (findStrField "vendor_name".data cs).getD []
    invoiceNumber := (findStrField "invoice_number".data cs).getD []
    invoiceDate := (findStrField "invoice_date".data cs).bind parseDateYMD
    dueDate := (findStrField "due_date".data cs).bind parseDateYMD
    subtotal := (findNumField "subtotal".data cs).getD 0
    taxRatePercent := (findNumField "tax_rate_percent".data cs).getD 0
    taxAmount := (findNumField "tax_amount".data cs).getD 0
    discount := (findNumField "discount".data cs).getD 0
    totalDue := (findNumField "total_due".data cs).getD 0
    items := recoverItems cs }

/-- Length of the whole regexp match `lit\s*` at this position: the literal
plus the maximal whitespace run after it. -/
def litWsMatchLen (lit : List Char) (cs : List Char) : Nat :=
  lit.length + ((cs.drop lit.length).takeWhile isGoWs).length

/-- `regexp.ReplaceAllString` with a pattern of the form `lit\s*`, scanning
left to right with a skip counter: while `skip > 0` the character belongs to
an already-matched span and is deleted; at `skip = 0`, a match starting here
deletes the whole span (scanning resumes after it, as `ReplaceAllString`'s
non-overlapping semantics requires), and otherwise the character is kept. -/
def removeLitWsAux (lit : List Char) : List Char → Nat → List Char
  | [], _ => []
  | _ :: rest, skip + 1 => removeLitWsAux lit rest skip
  | c :: rest, 0 =>
    if lit.isPrefixOf (c :: rest) then
      removeLitWsAux lit rest (litWsMatchLen lit (c :: rest) - 1)
    else c :: removeLitWsAux lit rest 0

/-- `regexp.MustCompile(lit ++ "\\s*").ReplaceAllString(cs, "")`. -/
def removeLitWs (lit : List Char) (cs : List Char) : List Char :=
  removeLitWsAux lit cs 0

/-- The fence-stripping preprocessing of `extractJSONWithRegex` (lines
118–120): remove every ```` ```json ```` marker (with trailing whitespace),
then every ```` ``` ```` marker (with trailing whitespace). -/
def stripFences (cs : List Char) : List Char :=
  removeLitWs "```".data (removeLitWs "```json".data cs)

/-- `regexp.MustCompile("\\{[\\s\\S]*\\}").FindString`: leftmost-then-greedy
means the span runs from the first `{` to the last `}` of the whole text
(provided that `}` comes after the `{`); `none` models the empty
`FindString` result. -/
def braceSpan (cs : List Char) : Option (List Char) :=
  match cs.dropWhile (fun c => c ≠ '{') with
  | '{' :: rest =>
    match rest.reverse.dropWhile (fun c => c ≠ '}') with
    | [] => none
    | r1 :: rrest => some ('{' :: (r1 :: rrest).reverse)
  | _ => none

/-- The typed error of the `openrouter` package (`OpenRouterError`), reduced
to its `Op` tag. -/
structure ORError where
  op : List Char
  deriving DecidableEq

/-- The one error `extractJSONWithRegex` can return. -/
def extractionError : ORError := { op := "extract_json_with_regex".data }

/-- The all-empty check and final outcome of the field-level recovery
(lines 337–345): an invoice with empty vendor name, empty invoice number,
zero total due and no items is reported as an extraction error; anything
else is returned as a success. -/
def regexRecoverStage (cs : List Char) : Except ORError Invoice :=
  if (recoverInvoice cs).vendorName = [] ∧ (recoverInvoice cs).invoiceNumber = [] ∧
     (recoverInvoice cs).totalDue = 0 ∧ (recoverInvoice cs).items = []
  then Except.error extractionError
  else Except.ok (recoverInvoice cs)

/-- `extractJSONWithRegex` (lines 117–346): strip code fences, try to decode
the first-`{`-to-last-`}` span as JSON, and otherwise fall back to
field-level regex recovery over the stripped text. -/
def extractJSONWithRegex (content : List Char) : Except ORError Invoice :=
  match braceSpan (stripFences content) with
  | some jsonMatch =>
    match decodeInvoiceDTO jsonMatch with
    | some dto => Except.ok (buildInvoice dto)
    | none => regexRecoverStage (stripFences content)
  | none => regexRecoverStage (stripFences content)

/-- The content-level cascade of `parseOpenRouterResponse` (lines 67–113):
first try to decode the completion text directly as the invoice JSON; on
any decode error fall through to `extractJSONWithRegex`. -/
def parseCompletion (content : List Char) : Except ORError Invoice :=
  match decodeInvoiceDTO content with
  | some dto => Except.ok (buildInvoice dto)
  | none => extractJSONWithRegex content

instance : DecidableEq (Except ORError Invoice) := fun a b =>
  match a, b with
  | Except.error x, Except.error y =>
    if h : x = y then Decidable.isTrue (congrArg Except.error h)
    else Decidable.isFalse (fun hh => h (Except.error.inj hh))
  | Except.ok x, Except.ok y =>
    if h : x = y then Decidable.isTrue (congrArg Except.ok h)
    else Decidable.isFalse (fun hh => h (Except.ok.inj hh))
  | Except.error _, Except.ok _ => Decidable.isFalse (fun hh => Except.noConfusion hh)
  | Except.ok _, Except.error _ => Decidable.isFalse (fun hh => Except.noConfusion hh)

/-! ## Legacy OCR path: the totals of `parseInvoiceText` (`src/unnamed/part_008`)

Only the totals computation is embedded: in `parseInvoiceText` the final
`TotalDue` depends exclusively on `extractSubtotal`, `extractTax` and
`extractTotal` plus the derivation step at lines 176–179; the vendor, the
invoice number, the date and the line items are assigned to unrelated
fields and do not feed into it. -/

/-- One token of an amount-pattern prefix: a case-insensitive literal or a
`\s*` gap. -/
inductive AmtTok where
  | lit (l : List Char)
  | ws

/-- Consume a literal prefix case-insensitively (the pattern literal is
lower-case; input characters are lowered before comparison). -/
def matchLitCI : List Char → List Char → Option (List Char)
  | [], cs => some cs
  | _, [] => none
  | p :: ps, c :: cs => if lowerAscii c = p then matchLitCI ps cs else none

/-- Match a token sequence case-insensitively at the head of the input
(`(?i)` literals and greedy `\s*` gaps; no backtracking is needed because a
literal never starts with a whitespace character). -/
def matchAmtToks : List AmtTok → List Char → Option (List Char)
  | [], cs => some cs
  | AmtTok.lit l :: toks, cs =>
    match matchLitCI l cs with
    | some rest => matchAmtToks toks rest
    | none => none
  | AmtTok.ws :: toks, cs => matchAmtToks toks (cs.dropWhile isGoWs)

/-- Consume the digit/comma-group body `\d+(?:,\d+)*` after the first digit
run: collected digits have the commas already removed, mirroring the
`strings.ReplaceAll(matches[1], ",", "")` step. -/
def commaGroups : Nat → List Char → (List Char × List Char)
  | 0, cs => ([], cs)
  | fuel + 1, cs =>
    match cs with
    | ',' :: rest =>
      let ds := rest.takeWhile isDigitChar
      if ds.isEmpty then ([], cs)
      else
        let (more, rem) := commaGroups fuel (rest.dropWhile isDigitChar)
        (ds ++ more, rem)
    | _ => ([], cs)

/-- Attempt one amount pattern
`(?i)PREFIX\s*:?\s*\$?\s*(\d+(?:,\d+)*(?:\.\d+)?)` at the head of the
input; returns the captured amount with commas removed, as parsed by
`strconv.ParseFloat`. -/
def matchAmountAt (toks : List AmtTok) (cs : List Char) : Option ℚ :=
  match matchAmtToks toks cs with
  | none => none
  | some rest =>
    let r1 := rest.dropWhile isGoWs
    let r2 := match r1 with
      | ':' :: t => t
      | _ => r1
    let r3 := r2.dropWhile isGoWs
    let r4 := match r3 with
      | '$' :: t => t
      | _ => r3
    let r5 := r4.dropWhile isGoWs
    let d1 := r5.takeWhile isDigitChar
    if d1.isEmpty then none
    else
      let afterD1 := r5.dropWhile isDigitChar
      let (groups, afterGroups) := commaGroups (afterD1.length + 1) afterD1
      let frac := match afterGroups with
        | '.' :: t => t.takeWhile isDigitChar
        | _ => []
      some (decimalToRat (d1 ++ groups) frac)

/-- Leftmost-occurrence search for one amount pattern. -/
def findAmount (toks : List AmtTok) : List Char → Option ℚ
  | [] => none
  | c :: rest =>
    match matchAmountAt toks (c :: rest) with
    | some q => some q
    | none => findAmount toks rest

/-- `extractAmount(text, patterns)`: try the patterns in order and return the
first match's amount (its `ParseFloat` cannot fail), or `0` when no pattern
matches. -/
def extractAmount (pats : List (List AmtTok)) (cs : List Char) : ℚ :=
  match pats with
  | [] => 0
  | p :: rest =>
    match findAmount p cs with
    | some q => q
    | none => extractAmount rest cs

/-- `extractSubtotal`: patterns `subtotal`, `sub\s*total`, `sub-total`. -/
def extractSubtotalOCR (cs : List Char) : ℚ :=
  extractAmount
    [[AmtTok.lit "subtotal".data],
     [AmtTok.lit "sub".data, AmtTok.ws, AmtTok.lit "total".data],
     [AmtTok.lit "sub-total".data]] cs

/-- `extractTax`: patterns `tax`, `vat`, `gst`. -/
def extractTaxOCR (cs : List Char) : ℚ :=
  extractAmount
    [[AmtTok.lit "tax".data], [AmtTok.lit "vat".data], [AmtTok.lit "gst".data]] cs

/-- `extractTotal`: patterns `total`, `amount\s*due`, `grand\s*total`. -/
def extractTotalOCR (cs : List Char) : ℚ :=
  extractAmount
    [[AmtTok.lit "total".data],
     [AmtTok.lit "amount".data, AmtTok.ws, AmtTok.lit "due".data],
     [AmtTok.lit "grand".data, AmtTok.ws, AmtTok.lit "total".data]] cs

/-- The totals of `parseInvoiceText` (lines 170–180): extract subtotal, tax
and total, then, if the total is missing (`0`) and the subtotal is positive,
derive the total as `Subtotal + TaxAmount`. Returns
`(Subtotal, TaxAmount, TotalDue)` as finally stored on the OCR invoice. -/
def parseInvoiceTextTotals (text : List Char) : ℚ × ℚ × ℚ :=
  let sub := extractSubtotalOCR text
  let tax := extractTaxOCR text
  let tot := extractTotalOCR text
  (sub, tax, if tot = 0 ∧ sub > 0 then sub + tax else tot)

/-! ## Category normalization (spec-modelled)

The keyword-based category classifier described in §4.4 of the spec exists
nowhere under `src/` (no keyword table such as taxi/hotel/flight appears in
any source file; `receipt_service.go` only carries the comment "Category
will be inferred or set later"), so it is modelled from the spec here. -/

/-- Modelled from the spec: the fixed ordered keyword table of the local
category classifier — "taxi"/"uber"/"grab" → Transport, "hotel"/"inn" →
Accommodation, "flight"/"airfare" → Travel, "meal"/"food"/"restaurant" →
Food, "office"/"stationery" → Office Supplies, "consult"/"service" →
Professional Services. The implementation in the repository is missing;
this table is taken verbatim from §4.4. -/
def categoryTable : List (List (List Char) × List Char) :=
  [(["taxi".data, "uber".data, "grab".data], "Transport".data),
   (["hotel".data, "inn".data], "Accommodation".data),
   (["flight".data, "airfare".data], "Travel".data),
   (["meal".data, "food".data, "restaurant".data], "Food".data),
   (["office".data, "stationery".data], "Office Supplies".data),
   (["consult".data, "service".data], "Professional Services".data)]

/-- Modelled from the spec: the classifier inspects the item description
with case-insensitive substring matches, in table order, first match wins,
defaulting to "Other". Written as the sequential keyword checks a direct
implementation would perform. -/
def classifyDescription (desc : List Char) : List Char :=
  let d := desc.map lowerAscii
  if containsSub "taxi".data d || containsSub "uber".data d || containsSub "grab".data d then
    "Transport".data
  else if containsSub "hotel".data d || containsSub "inn".data d then
    "Accommodation".data
  else if containsSub "flight".data d || containsSub "airfare".data d then
    "Travel".data
  else if containsSub "meal".data d || containsSub "food".data d || containsSub "restaurant".data d then
    "Food".data
  else if containsSub "office".data d || containsSub "stationery".data d then
    "Office Supplies".data
  else if containsSub "consult".data d || containsSub "service".data d then
    "Professional Services".data
  else "Other".data

/-- Modelled from the spec: normalization prefers a non-empty model-supplied
category verbatim and only otherwise invokes the local classifier. -/
def normalizeItemCategory (category desc : List Char) : List Char :=
  if category.isEmpty then classifyDescription desc else category

/-- First-match lookup over the ordered keyword table (the specification's
phrasing of the classifier), used to state that `classifyDescription`
realizes it. -/
def tableLookupCategory (desc : List Char) : List Char :=
  let d := desc.map lowerAscii
  match categoryTable.find? (fun e => e.1.any (fun kw => containsSub kw d)) with
  | some e => e.2
  | none => "Other".data

/-! ## Worker-pool admission (`ScanReceipt`, `receipt_service.go` lines 64–88)

`ScanReceipt` admits by sending into a buffered channel of capacity
`maxWorkers` inside a `select` with `ctx.Done()`, holds the slot across the
`ExtractInvoiceData` call, and releases it in a deferred receive. The
`select` is embedded as a one-shot decision (`scanReceiptAdmission`): when
both cases are ready the runtime chooses either branch (`preferCtx`); the
blocking multi-caller behavior is embedded as a transition system
(`PoolStep`) whose guards are read off the channel semantics. -/

/-- `ctx.Err()` values a cancelled Go context can carry. -/
inductive CtxErr where
  | canceled
  | deadlineExceeded
  deriving DecidableEq

/-- What a `ReceiptServiceError` wraps on the paths modelled here. -/
inductive ScanErrCause where
  | fromCtx (e : CtxErr)
  | fromExtract (e : ORError)
  deriving DecidableEq

/-- `ReceiptServiceError`, reduced to its `Op` tag and wrapped cause. -/
structure ReceiptServiceError where
  op : List Char
  cause : ScanErrCause
  deriving DecidableEq

/-- Outcome of one `ScanReceipt` attempt at its admission point. -/
inductive ScanOutcome where
  | blocked
  | failure (e : ReceiptServiceError)
  | success (inv : Invoice)
  deriving DecidableEq

/-- One `ScanReceipt` attempt, with the observations the claims need. -/
structure ScanStep where
  outcome : ScanOutcome
  extractInvoked : Bool
  slotAcquired : Bool
  slotReleased : Bool
  deriving DecidableEq

/-- The admission `select` of `ScanReceipt` (lines 66–88) followed by the
model call: if a pool slot is free and the caller is not cancelled (or the
runtime picks the send when both are ready), the call is admitted, invokes
`ExtractInvoiceData`, and the deferred receive releases the slot on both
the success and the error return; if the caller is cancelled while no slot
is free, the call returns an `acquire_worker` error wrapping `ctx.Err()`
without invoking the model; otherwise it keeps blocking. -/
def scanReceiptAdmission (slotFree ctxCancelled preferCtx : Bool) (ctxErr : CtxErr)
    (extractResult : Except ORError Invoice) : ScanStep :=
  if slotFree && (!ctxCancelled || !preferCtx) then
    match extractResult with
    | Except.error e =>
      { outcome := ScanOutcome.failure { op := "extract_receipt_data".data, cause := ScanErrCause.fromExtract e }
        extractInvoked := true
        slotAcquired := true
        slotReleased := true }
    | Except.ok inv =>
      { outcome := ScanOutcome.success inv
        extractInvoked := true
        slotAcquired := true
        slotReleased := true }
  else if ctxCancelled then
    { outcome := ScanOutcome.failure { op := "acquire_worker".data, cause := ScanErrCause.fromCtx ctxErr }
      extractInvoked := false
      slotAcquired := false
      slotReleased := false }
  else
    { outcome := ScanOutcome.blocked
      extractInvoked := false
      slotAcquired := false
      slotReleased := false }

/-- Default pool size: `getEnvInt("MAX_WORKERS", 5)` in `server.go`. -/
def defaultMaxWorkers : Nat := 5

/-- Phase of one `ScanReceipt` call with respect to the admission gate. -/
inductive CallPhase where
  | waiting
  | running
  | completed (failed : Bool)
  | cancelled
  deriving DecidableEq

/-- The shared state: the configured capacity and the phase of each call.
The number of `running` calls is exactly the number of held channel slots. -/
structure PoolSys where
  capacity : Nat
  calls : List CallPhase

/-- Number of `running` phases in a call list. -/
def countRunning : List CallPhase → Nat
  | [] => 0
  | p :: rest => (if p = CallPhase.running then 1 else 0) + countRunning rest

/-- Number of calls currently holding a slot. -/
def runningCount (s : PoolSys) : Nat := countRunning s.calls

/-- The transitions the Go code permits: a waiting call is admitted only
when a channel slot is free (`runningCount < capacity`); a waiting call can
observe its context's cancellation and leave; a running call — on success
or on error alike — releases its slot when it returns (the deferred
receive). Capacity never changes. -/
inductive PoolStep : PoolSys → PoolSys → Prop
  | acquire (s : PoolSys) (i : Nat) (h : s.calls.get? i = some CallPhase.waiting)
      (hcap : runningCount s < s.capacity) :
      PoolStep s { capacity := s.capacity, calls := s.calls.set i CallPhase.running }
  | cancel (s : PoolSys) (i : Nat) (h : s.calls.get? i = some CallPhase.waiting) :
      PoolStep s { capacity := s.capacity, calls := s.calls.set i CallPhase.cancelled }
  | finish (s : PoolSys) (i : Nat) (failed : Bool) (h : s.calls.get? i = some CallPhase.running) :
      PoolStep s { capacity := s.capacity, calls := s.calls.set i (CallPhase.completed failed) }

/-- Reachability along pool transitions. -/
def PoolReachable : PoolSys → PoolSys → Prop := Relation.ReflTransGen PoolStep

/-! ## Theorems -/

/-- C1: for every completion text on which both structural decode stages
fail, the field-level regex recovery stage (and hence the whole pipeline)
returns the extraction error exactly when the recovered invoice has an
empty vendor name, an empty invoice number, a zero total due and no items;
in every other case the partially populated invoice is returned as a
success. -/
theorem regexStageErrorIffAllEmpty (content : List Char)
    (h1 : decodeInvoiceDTO content = none)
    (h2 : ∀ m, braceSpan (stripFences content) = some m → decodeInvoiceDTO m = none) :
    (parseCompletion content = Except.error extractionError ↔
      ((recoverInvoice (stripFences content)).vendorName = [] ∧
       (recoverInvoice (stripFences content)).invoiceNumber = [] ∧
       (recoverInvoice (stripFences content)).totalDue = 0 ∧
       (recoverInvoice (stripFences content)).items = [])) ∧
    (¬((recoverInvoice (stripFences content)).vendorName = [] ∧
       (recoverInvoice (stripFences content)).invoiceNumber = [] ∧
       (recoverInvoice (stripFences content)).totalDue = 0 ∧
       (recoverInvoice (stripFences content)).items = []) →
      parseCompletion content = Except.ok (recoverInvoice (stripFences content))) := by
  have hred : parseCompletion content = regexRecoverStage (stripFences content) := by
    unfold parseCompletion extractJSONWithRegex
    rw [h1]
    cases hbs : braceSpan (stripFences content) with
    | none => rfl
    | some m =>
      show (match decodeInvoiceDTO m with
            | some dto => Except.ok (buildInvoice dto)
            | none => regexRecoverStage (stripFences content)) =
          regexRecoverStage (stripFences content)
      rw [h2 m hbs]
  rw [hred]
  unfold regexRecoverStage
  by_cases hc : ((recoverInvoice (stripFences content)).vendorName = [] ∧
       (recoverInvoice (stripFences content)).invoiceNumber = [] ∧
       (recoverInvoice (stripFences content)).totalDue = 0 ∧
       (recoverInvoice (stripFences content)).items = [])
  · exact ⟨⟨fun _ => hc, fun _ => by rw [if_pos hc]⟩, fun h => absurd hc h⟩
  · refine ⟨⟨fun h => ?_, fun h => absurd h hc⟩, fun _ => by rw [if_neg hc]⟩
    rw [if_neg hc] at h
    cases h

/-- Witness for C1: the spec's own all-empty example, a completion with no
recognizable field pattern, fails with the extraction error. -/
theorem regexStageErrorIffAllEmpty_witness :
    parseCompletion ("I could not read this image.").data = Except.error extractionError := by
  have hb : braceSpan (stripFences ("I could not read this image.").data) = none := by decide
  exact (regexStageErrorIffAllEmpty _ (by decide)
    (fun m hm => by rw [hb] at hm; cases hm)).1.mpr (by decide)

/-- C8: a `ScanReceipt` call whose context is cancelled while it is blocked
waiting for a pool slot (no slot free) returns the `acquire_worker` error
wrapping the context's error, never invokes `ExtractInvoiceData`, and the
error is distinguishable from an extraction failure by its operation tag. -/
theorem scanCancelledWhileBlocked (preferCtx : Bool) (ctxErr : CtxErr)
    (res : Except ORError Invoice) :
    scanReceiptAdmission false true preferCtx ctxErr res =
      { outcome := ScanOutcome.failure
          { op := "acquire_worker".data, cause := ScanErrCause.fromCtx ctxErr }
        extractInvoked := false
        slotAcquired := false
        slotReleased := false } ∧
    ("acquire_worker".data ≠ "extract_receipt_data".data) := by
  constructor
  · unfold scanReceiptAdmission
    simp
  · decide

unseal Rat.add Rat.mul Rat.inv Nat.gcd in
/-- Counterexample for C4: in the OpenRouter pipeline, a completion with a
recovered subtotal of 100 and tax amount of 10 but no `total_due` pattern
yields a successful invoice whose total due is 0 — not
`subtotal + tax_amount - discount = 110`. -/
theorem noTotalDerivationInPipeline_counterexample :
    ((parseCompletion ("pp \"vendor_name\": \"A\", \"subtotal\": 100, \"tax_amount\": 10.").data).toOption.map
        Invoice.subtotal = some 100) ∧
    ((parseCompletion ("pp \"vendor_name\": \"A\", \"subtotal\": 100, \"tax_amount\": 10.").data).toOption.map
        Invoice.taxAmount = some 10) ∧
    ((parseCompletion ("pp \"vendor_name\": \"A\", \"subtotal\": 100, \"tax_amount\": 10.").data).toOption.map
        Invoice.discount = some 0) ∧
    ((parseCompletion ("pp \"vendor_name\": \"A\", \"subtotal\": 100, \"tax_amount\": 10.").data).toOption.map
        Invoice.totalDue = some 0) ∧
    (0 : ℚ) ≠ 100 + 10 - 0 := by
  refine ⟨by decide, by decide, by decide, by decide, by norm_num⟩

/-- C4 (amended): only the legacy OCR text parser derives a missing total:
when its extracted total is 0 and its extracted subtotal is positive, the
stored total due is `subtotal + tax` (that path has no discount field); the
OpenRouter recovery stage performs no derivation — when the `total_due`
pattern is absent the recovered total due stays 0. -/
theorem totalDerivation (text content : List Char)
    (h1 : extractTotalOCR text = 0) (h2 : 0 < extractSubtotalOCR text)
    (h3 : findNumField "total_due".data (stripFences content) = none) :
    (parseInvoiceTextTotals text).2.2 = extractSubtotalOCR text + extractTaxOCR text ∧
    (recoverInvoice (stripFences content)).totalDue = 0 := by
  constructor
  · show (if extractTotalOCR text = 0 ∧ extractSubtotalOCR text > 0
          then extractSubtotalOCR text + extractTaxOCR text else extractTotalOCR text) =
        extractSubtotalOCR text + extractTaxOCR text
    rw [if_pos ⟨h1, h2⟩]
  · show (findNumField "total_due".data (stripFences content)).getD 0 = 0
    rw [h3]
    rfl

unseal Rat.add Rat.mul Rat.inv Nat.gcd in
/-- Witness for C4 (amended): OCR text with explicit `total: 0`,
`subtotal: 100`, `tax: 10` derives a total due of 110, and an OpenRouter
completion without a `total_due` pattern keeps total due 0. -/
theorem totalDerivation_witness :
    (parseInvoiceTextTotals ("total: 0\nsubtotal: 100\ntax: 10").data).2.2 =
      extractSubtotalOCR ("total: 0\nsubtotal: 100\ntax: 10").data +
        extractTaxOCR ("total: 0\nsubtotal: 100\ntax: 10").data ∧
    extractSubtotalOCR ("total: 0\nsubtotal: 100\ntax: 10").data +
        extractTaxOCR ("total: 0\nsubtotal: 100\ntax: 10").data = 110 ∧
    (recoverInvoice (stripFences ("nothing to see here").data)).totalDue = 0 := by
  have h := totalDerivation ("total: 0\nsubtotal: 100\ntax: 10").data ("nothing to see here").data
    (by decide) (by decide) (by decide)
  exact ⟨h.1, by decide, h.2⟩

/-- Helper for C5: the sequential keyword checks compute exactly the
first-match lookup over the ordered category table. -/
theorem classify_eq_tableLookup (desc : List Char) :
    classifyDescription desc = tableLookupCategory desc := by
  unfold classifyDescription tableLookupCategory categoryTable
  simp only [List.find?, List.any_cons, List.any_nil, Bool.or_false]
  by_cases h1 : (containsSub "taxi".data (desc.map lowerAscii) = true ∨
      containsSub "uber".data (desc.map lowerAscii) = true ∨
      containsSub "grab".data (desc.map lowerAscii) = true)
  · rcases h1 with h | h | h <;> simp [h]
  · push_neg at h1
    obtain ⟨ha, hb, hc⟩ := h1
    simp only [Bool.not_eq_true] at ha hb hc
    simp only [ha, hb, hc, Bool.or_false, Bool.false_or, if_neg]
    by_cases h2 : (containsSub "hotel".data (desc.map lowerAscii) = true ∨
        containsSub "inn".data (desc.map lowerAscii) = true)
    · rcases h2 with h | h <;> simp [h]
    · push_neg at h2
      obtain ⟨ha, hb⟩ := h2
      simp only [Bool.not_eq_true] at ha hb
      simp only [ha, hb, Bool.or_false, Bool.false_or]
      by_cases h3 : (containsSub "flight".data (desc.map lowerAscii) = true ∨
          containsSub "airfare".data (desc.map lowerAscii) = true)
      · rcases h3 with h | h <;> simp [h]
      · push_neg at h3
        obtain ⟨ha, hb⟩ := h3
        simp only [Bool.not_eq_true] at ha hb
        simp only [ha, hb, Bool.or_false, Bool.false_or]
        by_cases h4 : (containsSub "meal".data (desc.map lowerAscii) = true ∨
            containsSub "food".data (desc.map lowerAscii) = true ∨
            containsSub "restaurant".data (desc.map lowerAscii) = true)
        · rcases h4 with h | h | h <;> simp [h]
        · push_neg at h4
          obtain ⟨ha, hb, hc⟩ := h4
          simp only [Bool.not_eq_true] at ha hb hc
          simp only [ha, hb, hc, Bool.or_false, Bool.false_or]
          by_cases h5 : (containsSub "office".data (desc.map lowerAscii) = true ∨
              containsSub "stationery".data (desc.map lowerAscii) = true)
          · rcases h5 with h | h <;> simp [h]
          · push_neg at h5
            obtain ⟨ha, hb⟩ := h5
            simp only [Bool.not_eq_true] at ha hb
            simp only [ha, hb, Bool.or_false, Bool.false_or]
            by_cases h6 : (containsSub "consult".data (desc.map lowerAscii) = true ∨
                containsSub "service".data (desc.map lowerAscii) = true)
            · rcases h6 with h | h <;> simp [h]
            · push_neg at h6
              obtain ⟨ha, hb⟩ := h6
              simp only [Bool.not_eq_true] at ha hb
              simp [ha, hb]

/-- C5 (spec-modelled): when the model-supplied category is empty,
normalization assigns the category given by case-insensitive first-match
keyword lookup over the fixed ordered table (defaulting to "Other"); a
non-empty model category is kept verbatim. -/
theorem categoryNormalization (cat desc : List Char) (h : cat = []) :
    normalizeItemCategory cat desc = tableLookupCategory desc ∧
    (∀ c2 : List Char, c2 ≠ [] → normalizeItemCategory c2 desc = c2) := by
  constructor
  · subst h
    unfold normalizeItemCategory
    simp only [List.isEmpty_nil, if_true]
    exact classify_eq_tableLookup desc
  · intro c2 hc2
    unfold normalizeItemCategory
    rw [if_neg (by simpa [List.isEmpty_iff] using hc2)]

/-- Witness for C5: an item with empty category and description
"Grab to airport" is assigned the Transport category. -/
theorem categoryNormalization_witness :
    normalizeItemCategory [] ("Grab to airport").data =
      tableLookupCategory ("Grab to airport").data ∧
    tableLookupCategory ("Grab to airport").data = "Transport".data := by
  exact ⟨(categoryNormalization [] ("Grab to airport").data rfl).1, by decide⟩

/-- Helper for C10: a successful numeric-field match at a position captures
an unsigned decimal literal, so its value is non-negative. -/
theorem matchNumFieldAt_nonneg (key cs : List Char) (q : ℚ)
    (h : matchNumFieldAt key cs = some q) : 0 ≤ q := by
  unfold matchNumFieldAt at h
  split at h
  · cases h
  · split at h
    · split at h
      · cases h
      · injection h with h
        subst h
        unfold decimalToRat
        exact add_nonneg (Nat.cast_nonneg _) (div_nonneg (Nat.cast_nonneg _) (by positivity))
    · cases h

/-- C10 (amended): the numeric scalar patterns capture only unsigned
decimal literals of the form `\d+\.?\d*`, so every captured value is
non-negative — a sign is never part of a capture. (A value with a
thousands separator, however, is partially captured: see the
counterexample.) -/
theorem numericCapturesNonneg (key : List Char) :
    ∀ cs q, findNumField key cs = some q → 0 ≤ q := by
  intro cs
  induction cs with
  | nil => intro q h; cases h
  | cons c rest ih =>
    intro q h
    unfold findNumField at h
    cases hm : matchNumFieldAt key (c :: rest) with
    | some q2 =>
      simp only [hm] at h
      cases h
      exact matchNumFieldAt_nonneg _ _ _ hm
    | none =>
      simp only [hm] at h
      exact ih q h

unseal Rat.add Rat.mul Rat.inv Nat.gcd in
/-- Witness for C10 (amended): on a completion whose only `discount`
occurrence is negative, no capture happens and the field keeps 0; the
`subtotal` capture that does happen is non-negative. -/
theorem numericCapturesNonneg_witness :
    findNumField "subtotal".data ("w \"subtotal\": 12.5 and \"discount\": -5.00").data = some (25/2) ∧
    (0 : ℚ) ≤ 25/2 ∧
    findNumField "discount".data ("w \"subtotal\": 12.5 and \"discount\": -5.00").data = none := by
  refine ⟨by decide, ?_, by decide⟩
  exact numericCapturesNonneg "subtotal".data ("w \"subtotal\": 12.5 and \"discount\": -5.00").data
    (25/2) (by decide)

unseal Rat.add Rat.mul Rat.inv Nat.gcd in
/-- Counterexample for C10: a thousands-separated value is not "never
captured": `"subtotal": 1,000` is partially captured as its leading digit
group, so the recovered subtotal is 1, not the default 0 (the negative
`discount` in the same text is indeed not captured). -/
theorem numericCapturesNonneg_counterexample :
    ((parseCompletion ("v \"vendor_name\": \"A\", \"subtotal\": 1,000 and \"discount\": -5.00").data).toOption.map
        Invoice.subtotal = some 1) ∧
    ((parseCompletion ("v \"vendor_name\": \"A\", \"subtotal\": 1,000 and \"discount\": -5.00").data).toOption.map
        Invoice.discount = some 0) ∧
    containsSub (",000").data ("v \"vendor_name\": \"A\", \"subtotal\": 1,000 and \"discount\": -5.00").data = true ∧
    (1 : ℚ) ≠ 0 := by
  refine ⟨by decide, by decide, by decide, by norm_num⟩

/-- Helper for C9: how setting one element changes the running count. -/
theorem countRunning_set (l : List CallPhase) : ∀ (i : Nat) (x y : CallPhase),
    l.get? i = some y →
    countRunning (l.set i x) + (if y = CallPhase.running then 1 else 0) =
      countRunning l + (if x = CallPhase.running then 1 else 0) := by
  induction l with
  | nil => intro i x y h; cases h
  | cons a rest ih =>
    intro i x y h
    cases i with
    | zero =>
      injection h with h
      subst h
      by_cases hx : x = CallPhase.running <;> by_cases ha : a = CallPhase.running <;>
        simp [countRunning, hx, ha, List.set] <;> omega
    | succ n =>
      have h2 : rest.get? n = some y := h
      have := ih n x y h2
      show countRunning (a :: rest.set n x) + _ = _
      unfold countRunning
      omega

/-- Helper for C9: a system whose calls are all waiting holds no slot. -/
theorem countRunning_allWaiting (l : List CallPhase)
    (h : ∀ p ∈ l, p = CallPhase.waiting) : countRunning l = 0 := by
  induction l with
  | nil => rfl
  | cons a rest ih =>
    unfold countRunning
    have ha := h a (by simp)
    rw [ha, if_neg (by simp)]
    simpa using ih (fun p hp => h p (by simp [hp]))

/-- Helper for C9: pool transitions never change the capacity. -/
theorem poolStep_capacity {s t : PoolSys} (h : PoolStep s t) : t.capacity = s.capacity := by
  cases h <;> rfl

/-- Helper for C9: one pool transition preserves the admission bound. -/
theorem poolStep_inv {s t : PoolSys} (h : PoolStep s t)
    (hle : runningCount s ≤ s.capacity) : runningCount t ≤ t.capacity := by
  cases h with
  | acquire i hw hcap =>
    have hc := countRunning_set s.calls i CallPhase.running CallPhase.waiting hw
    simp only [runningCount] at *
    simp at hc
    omega
  | cancel i hw =>
    have hc := countRunning_set s.calls i CallPhase.cancelled CallPhase.waiting hw
    simp only [runningCount] at *
    simp at hc
    omega
  | finish i failed hr =>
    have hc := countRunning_set s.calls i (CallPhase.completed failed) CallPhase.running hr
    simp only [runningCount] at *
    simp at hc
    omega

/-- C9: with capacity N, at most N calls are past admission at any reachable
state; the only count-increasing transition (admission) requires a free
slot, so an (N+1)th caller stays blocked while the pool is full; and a
running call's return — failed or not — always releases exactly its slot;
the configured default capacity is 5. -/
theorem workerPoolBound :
    (∀ init s, (∀ p ∈ init.calls, p = CallPhase.waiting) →
       PoolReachable init s →
       runningCount s ≤ s.capacity ∧ s.capacity = init.capacity) ∧
    (∀ s t, PoolStep s t → runningCount s < runningCount t → runningCount s < s.capacity) ∧
    (∀ (s : PoolSys) (i : Nat) (failed : Bool), s.calls.get? i = some CallPhase.running →
       runningCount { capacity := s.capacity, calls := s.calls.set i (CallPhase.completed failed) } + 1 =
         runningCount s) ∧
    defaultMaxWorkers = 5 := by
  refine ⟨?_, ?_, ?_, rfl⟩
  · intro init s hw hr
    induction hr with
    | refl =>
      constructor
      · rw [show runningCount init = 0 from countRunning_allWaiting init.calls hw]
        exact Nat.zero_le _
      · rfl
    | tail hsteps hstep ih =>
      obtain ⟨ih1, ih2⟩ := ih
      refine ⟨poolStep_inv hstep ih1, ?_⟩
      rw [poolStep_capacity hstep, ih2]
  · intro s t hstep hlt
    cases hstep with
    | acquire i hw hcap => exact hcap
    | cancel i hw =>
      have hc := countRunning_set s.calls i CallPhase.cancelled CallPhase.waiting hw
      simp only [runningCount] at *
      simp at hc
      omega
    | finish i failed hr =>
      have hc := countRunning_set s.calls i (CallPhase.completed failed) CallPhase.running hr
      simp only [runningCount] at *
      simp at hc
      omega
  · intro s i failed hr
    have hc := countRunning_set s.calls i (CallPhase.completed failed) CallPhase.running hr
    simp only [runningCount]
    simp at hc
    omega

/-- Witness for C9: a fresh two-caller system with the default capacity
satisfies the bound, and a concrete running call's completion releases its
slot. -/
theorem workerPoolBound_witness :
    runningCount { capacity := 5, calls := [CallPhase.waiting, CallPhase.waiting] } ≤ 5 ∧
    runningCount { capacity := 1, calls := ([CallPhase.running].set 0 (CallPhase.completed true)) } + 1 =
      runningCount { capacity := 1, calls := [CallPhase.running] } := by
  constructor
  · exact (workerPoolBound.1 { capacity := 5, calls := [CallPhase.waiting, CallPhase.waiting] } _
      (by decide) Relation.ReflTransGen.refl).1
  · exact workerPoolBound.2.2.1 { capacity := 1, calls := [CallPhase.running] } 0 true rfl

/-- Helper for C3: the item fold only ever appends items whose description
is non-empty. -/
theorem foldKeep_description (cands : List (List Char)) : ∀ acc : List LineItem,
    (∀ li ∈ acc, li.description ≠ []) →
    ∀ li ∈ cands.foldl
      (fun acc cand =>
        let li := parseItemCandidate cand
        if li.description.isEmpty then acc else acc ++ [li]) acc,
      li.description ≠ [] := by
  induction cands with
  | nil => intro acc hacc li hli; exact hacc li hli
  | cons c cs ih =>
    intro acc hacc li hli
    rw [List.foldl_cons] at hli
    refine ih _ ?_ li hli
    intro li2 hli2
    simp only at hli2
    by_cases hd : (parseItemCandidate c).description.isEmpty
    · rw [if_pos hd] at hli2
      exact hacc li2 hli2
    · rw [if_neg hd] at hli2
      rcases List.mem_append.mp hli2 with h | h
      · exact hacc li2 h
      · have he : li2 = parseItemCandidate c := by simpa using h
        subst he
        intro hnil
        exact hd (by simp [hnil])

/-- C3 (amended): in the field-level regex recovery stage, every kept item
has a non-empty description. (The two structural decode stages do not
filter: see the counterexample, where a valid-JSON completion keeps a
blank-description item.) -/
theorem regexStageItemsHaveDescription (cs : List Char) :
    ∀ li ∈ (recoverInvoice cs).items, li.description ≠ [] := by
  show ∀ li ∈ recoverItems cs, li.description ≠ []
  unfold recoverItems
  cases hb : findBracketField ("items").data cs with
  | none => intro li hli; cases hli
  | some inner =>
    intro li hli
    exact foldKeep_description _ [] (fun li2 h => absurd h (List.not_mem_nil li2)) li hli

unseal Rat.add Rat.mul Rat.inv Nat.gcd in
/-- Counterexample for C3: fed the claim's own items array as valid strict
JSON, the first decode stage keeps both items, including the one with an
empty description — the assembled invoice has two items, not one. -/
theorem regexStageItemsHaveDescription_counterexample :
    (parseCompletion ("\x7b\"vendor_name\":\"A\",\"items\":[\x7b\"description\":\"\"\x7d,\x7b\"description\":\"Widget\"\x7d]\x7d").data).toOption.map
        (fun i => i.items.map LineItem.description) = some [[], "Widget".data] := by
  decide

unseal Rat.add Rat.mul Rat.inv Nat.gcd in
/-- Witness for C3 (amended): a concrete recovered item from the regex
stage, with its non-empty description. -/
theorem regexStageItemsHaveDescription_witness :
    ({ description := "Widget".data, details := [], quantity := 2, unitPrice := 0, total := 0 } : LineItem) ∈
      (recoverInvoice ("zz \"vendor_name\": \"A\", \"items\": [ \x7b\"description\":\"Widget\", \"quantity\": 2,\x7d ]").data).items ∧
    ({ description := "Widget".data, details := [], quantity := 2, unitPrice := 0, total := 0 } : LineItem).description ≠ [] := by
  refine ⟨by decide, ?_⟩
  exact regexStageItemsHaveDescription ("zz \"vendor_name\": \"A\", \"items\": [ \x7b\"description\":\"Widget\", \"quantity\": 2,\x7d ]").data
    { description := "Widget".data, details := [], quantity := 2, unitPrice := 0, total := 0 } (by decide)

/-- Helper for C7: a non-empty `dropWhile` result starts with a character
that falsifies the predicate. -/
theorem dropWhile_head_false (p : Char → Bool) : ∀ (l : List Char) (x : Char) (xs : List Char),
    l.dropWhile p = x :: xs → p x = false := by
  intro l
  induction l with
  | nil => intro x xs h; cases h
  | cons a rest ih =>
    intro x xs h
    by_cases ha : p a
    · rw [List.dropWhile_cons_of_pos ha] at h
      exact ih x xs h
    · rw [List.dropWhile_cons_of_neg ha] at h
      injection h with h1 _
      subst h1
      simpa using ha

/-- Helper for C7: a successful literal match leaves a suffix of the input. -/
theorem matchLit_suffix : ∀ (lit cs rest : List Char), matchLit lit cs = some rest → rest <:+ cs := by
  intro lit
  induction lit with
  | nil =>
    intro cs rest h
    simp only [matchLit] at h
    cases h
    exact List.suffix_refl cs
  | cons p ps ih =>
    intro cs rest h
    cases cs with
    | nil => cases h
    | cons c cs2 =>
      unfold matchLit at h
      split at h
      · exact (ih cs2 rest h).trans (List.suffix_cons c cs2)
      · cases h

/-- Helper for C7: trimming only removes characters. -/
theorem trimGoWs_subset (l : List Char) (x : Char) (h : x ∈ trimGoWs l) : x ∈ l := by
  unfold trimGoWs at h
  rw [List.mem_reverse] at h
  have h2 := (List.dropWhile_suffix isGoWs).subset h
  rw [List.mem_reverse] at h2
  exact (List.dropWhile_suffix isGoWs).subset h2

/-- Helper for C7: the bracketed-array capture stops before the first `]`,
so it never contains a `]`. -/
theorem matchBracketFieldAt_no_rbracket (key cs inner : List Char)
    (h : matchBracketFieldAt key cs = some inner) : ']' ∉ inner := by
  unfold matchBracketFieldAt at h
  split at h
  · cases h
  · split at h
    · split at h
      · split at h
        · cases h
        · injection h with h
          subst h
          intro hmem
          have h2 := trimGoWs_subset _ _ hmem
          have h3 := List.mem_takeWhile_imp h2
          simp at h3
      · cases h
    · cases h

/-- Helper for C7: a successful bracketed-array match needs a `]`
somewhere in the text it matched on. -/
theorem matchBracketFieldAt_rbracket_mem (key cs inner : List Char)
    (h : matchBracketFieldAt key cs = some inner) : ']' ∈ cs := by
  unfold matchBracketFieldAt at h
  split at h
  · cases h
  next afterKey hlit =>
    split at h
    next afterColon hcolon =>
      split at h
      next body hbody =>
        split at h
        · cases h
        next x xs hdrop =>
          have hx := dropWhile_head_false _ body x xs hdrop
          simp at hx
          subst hx
          have hxb : ']' ∈ body := (List.dropWhile_suffix _).subset (by rw [hdrop]; simp)
          have hb2 : ']' ∈ afterColon.dropWhile isGoWs := by rw [hbody]; simp [hxb]
          have hb3 : ']' ∈ afterColon := (List.dropWhile_suffix _).subset hb2
          have hb4 : ']' ∈ afterKey.dropWhile isGoWs := by rw [hcolon]; simp [hb3]
          have hb5 : ']' ∈ afterKey := (List.dropWhile_suffix _).subset hb4
          exact (matchLit_suffix _ _ _ hlit).subset hb5
      · cases h
    · cases h

/-- Helper for C7: leftmost-search version of the no-`]` property. -/
theorem findBracketField_no_rbracket (key : List Char) : ∀ (cs inner : List Char),
    findBracketField key cs = some inner → ']' ∉ inner := by
  intro cs
  induction cs with
  | nil => intro inner h; cases h
  | cons c rest ih =>
    intro inner h
    unfold findBracketField at h
    cases hm : matchBracketFieldAt key (c :: rest) with
    | some i2 =>
      simp only [hm] at h
      cases h
      exact matchBracketFieldAt_no_rbracket _ _ _ hm
    | none =>
      simp only [hm] at h
      exact ih inner h

/-- Helper for C7: leftmost-search version of the `]`-needed property. -/
theorem findBracketField_rbracket_mem (key : List Char) : ∀ (cs inner : List Char),
    findBracketField key cs = some inner → ']' ∈ cs := by
  intro cs
  induction cs with
  | nil => intro inner h; cases h
  | cons c rest ih =>
    intro inner h
    unfold findBracketField at h
    cases hm : matchBracketFieldAt key (c :: rest) with
    | some i2 =>
      simp only [hm] at h
      exact matchBracketFieldAt_rbracket_mem _ _ _ hm
    | none =>
      simp only [hm] at h
      exact List.mem_cons_of_mem c (ih inner h)

/-- Helper for C7: every character of a brace-delimited candidate is a
character of the split text or one of the braces themselves. -/
theorem splitBraceObjects_chars : ∀ (fuel : Nat) (l cand : List Char) (x : Char),
    cand ∈ splitBraceObjects fuel l → x ∈ cand → x ∈ l ∨ x = '{' ∨ x = '}' := by
  intro fuel
  induction fuel with
  | zero => intro l cand x hc _; cases hc
  | succ fuel ih =>
    intro l cand x hc hx
    cases l with
    | nil => cases hc
    | cons c rest =>
      unfold splitBraceObjects at hc
      by_cases hbrace : c = '{'
      · rw [if_pos hbrace] at hc
        cases hdrop : rest.dropWhile (fun ch => ch ≠ '}') with
        | nil => rw [hdrop] at hc; cases hc
        | cons d after =>
          have hd := dropWhile_head_false _ rest d after hdrop
          simp at hd
          subst hd
          rw [hdrop] at hc
          rcases List.mem_cons.mp hc with hcand | hcand
          · subst hcand
            rcases List.mem_cons.mp hx with hx1 | hx2
            · right; left; exact hx1
            · rcases List.mem_append.mp hx2 with hx3 | hx4
              · have := (List.takeWhile_prefix (fun ch => ch ≠ '}')).subset hx3
                exact Or.inl (List.mem_cons_of_mem c this)
              · right; right; simpa using hx4
          · rcases ih after cand x hcand hx with h | h
            · have hsuf : after <:+ rest := by
                have h1 : '}' :: after <:+ rest := by
                  rw [← hdrop]
                  exact List.dropWhile_suffix _
                exact (List.suffix_cons '}' after).trans h1
              exact Or.inl (List.mem_cons_of_mem c (hsuf.subset h))
            · exact Or.inr h
      · rw [if_neg hbrace] at hc
        rcases ih rest cand x hc hx with h | h
        · exact Or.inl (List.mem_cons_of_mem c h)
        · exact Or.inr h

/-- Helper for C7: every item produced by the fold is the extraction of one
of the candidates. -/
theorem foldKeep_mem (cands : List (List Char)) : ∀ (acc : List LineItem) (out : LineItem),
    (out ∈ cands.foldl
      (fun acc cand =>
        let li := parseItemCandidate cand
        if li.description.isEmpty then acc else acc ++ [li]) acc) →
    out ∈ acc ∨ ∃ cand ∈ cands, out = parseItemCandidate cand := by
  induction cands with
  | nil => intro acc out h; exact Or.inl h
  | cons c cs ih =>
    intro acc out h
    rw [List.foldl_cons] at h
    rcases ih _ out h with h2 | h2
    · simp only at h2
      by_cases hd : (parseItemCandidate c).description.isEmpty
      · rw [if_pos hd] at h2
        exact Or.inl h2
      · rw [if_neg hd] at h2
        rcases List.mem_append.mp h2 with h3 | h3
        · exact Or.inl h3
        · exact Or.inr ⟨c, by simp, by simpa using h3⟩
    · obtain ⟨cand, hc1, hc2⟩ := h2
      exact Or.inr ⟨cand, by simp [hc1], hc2⟩

/-- C7 (amended): the items span is isolated only up to the first `]` after
the array's opening bracket, so the isolated span — and hence every
brace-delimited candidate — contains no `]`; the nested `details`
extraction (which needs a `]`) therefore never succeeds, and every
recovered item has empty details. In particular an item carrying a
non-empty details array is never recovered with those details (the span
truncation usually loses the item altogether: see the counterexample). -/
theorem recoveredItemsHaveNoDetails (cs : List Char) :
    ∀ li ∈ (recoverInvoice cs).items, li.details = [] := by
  show ∀ li ∈ recoverItems cs, li.details = []
  unfold recoverItems
  cases hb : findBracketField ("items").data cs with
  | none => intro li hli; cases hli
  | some inner =>
    intro li hli
    have hnr : ']' ∉ inner := findBracketField_no_rbracket _ cs inner hb
    rcases foldKeep_mem _ [] li hli with h | ⟨cand, hc1, hc2⟩
    · cases h
    · have hcr : ']' ∉ cand := by
        intro hx
        rcases splitBraceObjects_chars _ inner cand ']' hc1 hx with h | h | h
        · exact hnr h
        · cases h
        · cases h
      subst hc2
      show (match findBracketField ("details").data cand with
            | some detailsContent => findAllQuoted (detailsContent.length + 1) detailsContent
            | none => []) = []
      cases hd : findBracketField ("details").data cand with
      | none => rfl
      | some dc => exact absurd (findBracketField_rbracket_mem _ cand dc hd) hcr

unseal Rat.add Rat.mul Rat.inv Nat.gcd in
/-- Counterexample for C7: a completion whose items array carries an item
with a non-empty details list; the recovery stage isolates the span up to
the details array's own `]`, finds no complete brace object inside, and
recovers no items at all — the details-carrying item is lost, not
recovered with its details. -/
theorem recoveredItemsHaveNoDetails_counterexample :
    ((parseCompletion ("xx \"vendor_name\": \"A\", \"items\": [ \x7b\"description\":\"X\",\"details\":[\"d1\",\"d2\"],\"quantity\":2\x7d, \x7b\"description\":\"Y\"\x7d ]").data).toOption.map Invoice.items = some []) ∧
    ((parseCompletion ("xx \"vendor_name\": \"A\", \"items\": [ \x7b\"description\":\"X\",\"details\":[\"d1\",\"d2\"],\"quantity\":2\x7d, \x7b\"description\":\"Y\"\x7d ]").data).toOption.map Invoice.vendorName = some ("A").data) ∧
    (containsSub ("\"details\":[\"d1\",\"d2\"]").data ("xx \"vendor_name\": \"A\", \"items\": [ \x7b\"description\":\"X\",\"details\":[\"d1\",\"d2\"],\"quantity\":2\x7d, \x7b\"description\":\"Y\"\x7d ]").data = true) := by
  refine ⟨by decide, by decide, by decide⟩

unseal Rat.add Rat.mul Rat.inv Nat.gcd in
/-- Witness for C7 (amended): a concrete recovered item, with its empty
details list. -/
theorem recoveredItemsHaveNoDetails_witness :
    ({ description := "Pen".data, details := [], quantity := 0, unitPrice := 0, total := 3 } : LineItem) ∈
      (recoverInvoice ("qq \"vendor_name\": \"B\", \"items\": [ \x7b\"description\":\"Pen\", \"total\": 3,\x7d ]").data).items ∧
    ({ description := "Pen".data, details := [], quantity := 0, unitPrice := 0, total := 3 } : LineItem).details = [] := by
  refine ⟨by decide, ?_⟩
  exact recoveredItemsHaveNoDetails ("qq \"vendor_name\": \"B\", \"items\": [ \x7b\"description\":\"Pen\", \"total\": 3,\x7d ]").data
    { description := "Pen".data, details := [], quantity := 0, unitPrice := 0, total := 3 } (by decide)

/-- Helper: when both structural decode stages fail, the pipeline is the
field-level regex recovery over the fence-stripped content. -/
theorem pipeline_falls_to_regex (content : List Char)
    (h1 : decodeInvoiceDTO content = none)
    (h2 : ∀ m, braceSpan (stripFences content) = some m → decodeInvoiceDTO m = none) :
    parseCompletion content = regexRecoverStage (stripFences content) := by
  unfold parseCompletion extractJSONWithRegex
  rw [h1]
  cases hbs : braceSpan (stripFences content) with
  | none => rfl
  | some m =>
    show (match decodeInvoiceDTO m with
          | some dto => Except.ok (buildInvoice dto)
          | none => regexRecoverStage (stripFences content)) =
        regexRecoverStage (stripFences content)
    rw [h2 m hbs]

/-- Helper for C6: a string-field capture (`([^"]+)`) is never empty. -/
theorem matchStrFieldAt_ne_nil (key cs v : List Char)
    (h : matchStrFieldAt key cs = some v) : v ≠ [] := by
  unfold matchStrFieldAt at h
  split at h
  · cases h
  · split at h
    · split at h
      · split at h
        · cases h
        · split at h
          · injection h with h
            subst h
            simp
          · cases h
      · cases h
    · cases h

/-- Helper for C6: leftmost-search version of the non-empty-capture fact. -/
theorem findStrField_ne_nil (key : List Char) : ∀ cs v, findStrField key cs = some v → v ≠ [] := by
  intro cs
  induction cs with
  | nil => intro v h; cases h
  | cons c rest ih =>
    intro v h
    unfold findStrField at h
    cases hm : matchStrFieldAt key (c :: rest) with
    | some v2 =>
      simp only [hm] at h
      cases h
      exact matchStrFieldAt_ne_nil _ _ _ hm
    | none =>
      simp only [hm] at h
      exact ih v h

/-- C6 (amended): when both structural stages fail and the vendor-name and
total-due patterns match somewhere in the fence-stripped text, the pipeline
succeeds and each field carries the value captured at the LEFTMOST
occurrence of its pattern; when the given substrings are the first such
occurrences (as in the spec's example), vendor is "Acme Corp" and total is
79.18. -/
theorem regexScalarRecovery (content v : List Char) (t : ℚ)
    (h1 : decodeInvoiceDTO content = none)
    (h2 : ∀ m, braceSpan (stripFences content) = some m → decodeInvoiceDTO m = none)
    (hv : findStrField ("vendor_name").data (stripFences content) = some v)
    (ht : findNumField ("total_due").data (stripFences content) = some t) :
    parseCompletion content = Except.ok (recoverInvoice (stripFences content)) ∧
    (recoverInvoice (stripFences content)).vendorName = v ∧
    (recoverInvoice (stripFences content)).totalDue = t := by
  have hvend : (recoverInvoice (stripFences content)).vendorName = v := by
    show (findStrField ("vendor_name").data (stripFences content)).getD [] = v
    rw [hv]
    rfl
  have htot : (recoverInvoice (stripFences content)).totalDue = t := by
    show (findNumField ("total_due").data (stripFences content)).getD 0 = t
    rw [ht]
    rfl
  refine ⟨?_, hvend, htot⟩
  rw [pipeline_falls_to_regex content h1 h2]
  unfold regexRecoverStage
  rw [if_neg]
  intro hall
  exact findStrField_ne_nil _ _ _ hv (hvend ▸ hall.1)

unseal Rat.add Rat.mul Rat.inv Nat.gcd in
/-- Witness for C6: the spec's P3 example, prose text carrying the two
literal substrings, recovers vendor "Acme Corp" and total 79.18. -/
theorem regexScalarRecovery_witness :
    parseCompletion ("The invoice is from \"vendor_name\": \"Acme Corp\" and \"total_due\": 79.18. Thanks!").data =
      Except.ok (recoverInvoice (stripFences ("The invoice is from \"vendor_name\": \"Acme Corp\" and \"total_due\": 79.18. Thanks!").data)) ∧
    (recoverInvoice (stripFences ("The invoice is from \"vendor_name\": \"Acme Corp\" and \"total_due\": 79.18. Thanks!").data)).vendorName = ("Acme Corp").data ∧
    (recoverInvoice (stripFences ("The invoice is from \"vendor_name\": \"Acme Corp\" and \"total_due\": 79.18. Thanks!").data)).totalDue = 7918/100 := by
  have hb : braceSpan (stripFences ("The invoice is from \"vendor_name\": \"Acme Corp\" and \"total_due\": 79.18. Thanks!").data) = none := by decide
  exact regexScalarRecovery _ _ _ (by decide) (fun m hm => by rw [hb] at hm; cases hm) (by decide) (by decide)

unseal Rat.add Rat.mul Rat.inv Nat.gcd in
/-- Counterexample for C6: a completion containing the two literal
substrings on which both structural stages fail, but with an earlier
`vendor_name` occurrence — the leftmost match wins, so the recovered vendor
is "Zzz", not "Acme Corp". -/
theorem regexScalarRecovery_counterexample :
    (decodeInvoiceDTO ("note \"vendor_name\": \"Zzz\" and \"vendor_name\": \"Acme Corp\" with \"total_due\": 79.18").data = none) ∧
    (containsSub ("\"vendor_name\": \"Acme Corp\"").data ("note \"vendor_name\": \"Zzz\" and \"vendor_name\": \"Acme Corp\" with \"total_due\": 79.18").data = true) ∧
    (containsSub ("\"total_due\": 79.18").data ("note \"vendor_name\": \"Zzz\" and \"vendor_name\": \"Acme Corp\" with \"total_due\": 79.18").data = true) ∧
    ((parseCompletion ("note \"vendor_name\": \"Zzz\" and \"vendor_name\": \"Acme Corp\" with \"total_due\": 79.18").data).toOption.map Invoice.vendorName = some ("Zzz").data) ∧
    (("Zzz").data ≠ ("Acme Corp").data) := by
  refine ⟨by decide, by decide, by decide, by decide, by decide⟩

/-- Helper for C2: `dropWhile` skips a fully-satisfying prefix. -/
theorem dropWhile_append_all (p : Char → Bool) : ∀ (xs ys : List Char),
    (∀ x ∈ xs, p x = true) → (xs ++ ys).dropWhile p = ys.dropWhile p := by
  intro xs
  induction xs with
  | nil => intro ys _; rfl
  | cons x xs ih =>
    intro ys h
    show ((x :: (xs ++ ys)).dropWhile p) = _
    rw [List.dropWhile_cons_of_pos (h x (by simp))]
    exact ih ys (fun a ha => h a (by simp [ha]))

/-- Helper for C2: on brace-free surroundings, the first-`\x7b`-to-last-`\x7d`
span of a wrapped object is exactly the object. -/
theorem braceSpan_wrap (pre mid post : List Char)
    (hpre : ∀ x ∈ pre, x ≠ '{' ∧ x ≠ '}') (hpost : ∀ x ∈ post, x ≠ '{' ∧ x ≠ '}') :
    braceSpan (pre ++ ('{' :: mid ++ ['}']) ++ post) = some ('{' :: mid ++ ['}']) := by
  unfold braceSpan
  have hd : (pre ++ ('{' :: mid ++ ['}']) ++ post).dropWhile (fun c => c ≠ '{') =
      '{' :: (mid ++ ['}'] ++ post) := by
    have e0 : pre ++ ('{' :: mid ++ ['}']) ++ post = pre ++ ('{' :: (mid ++ ['}'] ++ post)) := by simp
    rw [e0, dropWhile_append_all _ pre _ (fun x hx => by simp [(hpre x hx).1])]
    rw [List.dropWhile_cons_of_neg (by simp)]
  rw [hd]
  show (match (mid ++ ['}'] ++ post).reverse.dropWhile (fun c => c ≠ '}') with
        | [] => none
        | r1 :: rrest => some ('{' :: (r1 :: rrest).reverse)) = some ('{' :: mid ++ ['}'])
  have hrev : (mid ++ ['}'] ++ post).reverse = post.reverse ++ ('}' :: mid.reverse) := by simp
  have hdr : (mid ++ ['}'] ++ post).reverse.dropWhile (fun c => c ≠ '}') = '}' :: mid.reverse := by
    rw [hrev, dropWhile_append_all _ post.reverse _
      (fun x hx => by simp [(hpost x (List.mem_reverse.mp hx)).2])]
    rw [List.dropWhile_cons_of_neg (by simp)]
  rw [hdr]
  simp


/-- Helper for C2: the skip counter deletes exactly the counted characters. -/
theorem removeLitWsAux_skip (lit : List Char) : ∀ (xs ys : List Char),
    removeLitWsAux lit (xs ++ ys) xs.length = removeLitWsAux lit ys 0 := by
  intro xs
  induction xs with
  | nil => intro ys; rfl
  | cons x xs ih =>
    intro ys
    show removeLitWsAux lit (x :: (xs ++ ys)) (xs.length + 1) = _
    rw [show removeLitWsAux lit (x :: (xs ++ ys)) (xs.length + 1) = removeLitWsAux lit (xs ++ ys) xs.length from rfl]
    exact ih ys

/-- Helper for C2: the replace-all scan passes over a backtick-free prefix
unchanged (both fence patterns start with a backtick). -/
theorem removeLitWsAux_append (lit2 : List Char) : ∀ (xs ys : List Char),
    (∀ x ∈ xs, x ≠ '`') →
    removeLitWsAux ('`' :: lit2) (xs ++ ys) 0 = xs ++ removeLitWsAux ('`' :: lit2) ys 0 := by
  intro xs
  induction xs with
  | nil => intro ys _; rfl
  | cons x xs ih =>
    intro ys hnb
    have hx : x ≠ '`' := hnb x (by simp)
    show removeLitWsAux ('`' :: lit2) (x :: (xs ++ ys)) 0 = _
    have hpre : ('`' :: lit2).isPrefixOf (x :: (xs ++ ys)) = false := by
      show (('`' == x) && lit2.isPrefixOf (xs ++ ys)) = false
      simp [Ne.symm hx]
    rw [show removeLitWsAux ('`' :: lit2) (x :: (xs ++ ys)) 0 =
          (if ('`' :: lit2).isPrefixOf (x :: (xs ++ ys)) then
            removeLitWsAux ('`' :: lit2) (xs ++ ys) (litWsMatchLen ('`' :: lit2) (x :: (xs ++ ys)) - 1)
          else x :: removeLitWsAux ('`' :: lit2) (xs ++ ys) 0) from rfl]
    rw [hpre]
    simp only [Bool.false_eq_true, if_false]
    rw [ih ys (fun a ha => hnb a (by simp [ha]))]
    rfl

/-- Helper for C2: a backtick-free text is left unchanged by fence removal. -/
theorem removeLitWs_id_of_no_backtick (lit2 cs : List Char) (h : ∀ x ∈ cs, x ≠ '`') :
    removeLitWs ('`' :: lit2) cs = cs := by
  have := removeLitWsAux_append lit2 cs [] h
  simpa [removeLitWs, removeLitWsAux] using this

/-- Helper for C2: removing one leading ```` ```json ```` marker together
with its trailing newline. -/
theorem removeJsonMarker (mid2 : List Char) :
    removeLitWsAux ("```json").data ('`' :: '`' :: '`' :: 'j' :: 's' :: 'o' :: 'n' :: '\n' :: '{' :: mid2) 0 =
      removeLitWsAux ("```json").data ('{' :: mid2) 0 := by
  have hpre : ("```json").data.isPrefixOf ('`' :: '`' :: '`' :: 'j' :: 's' :: 'o' :: 'n' :: '\n' :: '{' :: mid2) = true := by
    simp [List.isPrefixOf]
  have hlen : litWsMatchLen ("```json").data ('`' :: '`' :: '`' :: 'j' :: 's' :: 'o' :: 'n' :: '\n' :: '{' :: mid2) = 8 := by
    unfold litWsMatchLen
    simp [isGoWs, List.takeWhile]
  rw [show removeLitWsAux ("```json").data ('`' :: '`' :: '`' :: 'j' :: 's' :: 'o' :: 'n' :: '\n' :: '{' :: mid2) 0 =
        (if ("```json").data.isPrefixOf ('`' :: '`' :: '`' :: 'j' :: 's' :: 'o' :: 'n' :: '\n' :: '{' :: mid2) then
          removeLitWsAux ("```json").data ('`' :: '`' :: 'j' :: 's' :: 'o' :: 'n' :: '\n' :: '{' :: mid2)
            (litWsMatchLen ("```json").data ('`' :: '`' :: '`' :: 'j' :: 's' :: 'o' :: 'n' :: '\n' :: '{' :: mid2) - 1)
        else '`' :: removeLitWsAux ("```json").data ('`' :: '`' :: 'j' :: 's' :: 'o' :: 'n' :: '\n' :: '{' :: mid2) 0) from rfl]
  rw [hpre, hlen]
  simp only [if_true]
  have := removeLitWsAux_skip ("```json").data ['`', '`', 'j', 's', 'o', 'n', '\n'] ('{' :: mid2)
  simpa using this

/-- Helper for C2: removing one leading ```` ``` ```` marker together with
its trailing newline. -/
theorem removeTicksMarker (mid2 : List Char) :
    removeLitWsAux ("```").data ('`' :: '`' :: '`' :: '\n' :: '{' :: mid2) 0 =
      removeLitWsAux ("```").data ('{' :: mid2) 0 := by
  have hpre : ("```").data.isPrefixOf ('`' :: '`' :: '`' :: '\n' :: '{' :: mid2) = true := by
    simp [List.isPrefixOf]
  have hlen : litWsMatchLen ("```").data ('`' :: '`' :: '`' :: '\n' :: '{' :: mid2) = 4 := by
    unfold litWsMatchLen
    simp [isGoWs, List.takeWhile]
  rw [show removeLitWsAux ("```").data ('`' :: '`' :: '`' :: '\n' :: '{' :: mid2) 0 =
        (if ("```").data.isPrefixOf ('`' :: '`' :: '`' :: '\n' :: '{' :: mid2) then
          removeLitWsAux ("```").data ('`' :: '`' :: '\n' :: '{' :: mid2)
            (litWsMatchLen ("```").data ('`' :: '`' :: '`' :: '\n' :: '{' :: mid2) - 1)
        else '`' :: removeLitWsAux ("```").data ('`' :: '`' :: '\n' :: '{' :: mid2) 0) from rfl]
  rw [hpre, hlen]
  simp only [if_true]
  have := removeLitWsAux_skip ("```").data ['`', '`', '\n'] ('{' :: mid2)
  simpa using this

/-- Helper for C2: the ```` ```json ```` pass leaves a plain ```` ``` ````
fence alone. -/
theorem removeJsonPlainFence (X : List Char) :
    removeLitWsAux ("```json").data ('`' :: '`' :: '`' :: '\n' :: X) 0 =
      '`' :: '`' :: '`' :: '\n' :: removeLitWsAux ("```json").data X 0 := by
  have h1 : ("```json").data.isPrefixOf ('`' :: '`' :: '`' :: '\n' :: X) = false := by
    simp [List.isPrefixOf]
  have h2 : ("```json").data.isPrefixOf ('`' :: '`' :: '\n' :: X) = false := by
    simp [List.isPrefixOf]
  have h3 : ("```json").data.isPrefixOf ('`' :: '\n' :: X) = false := by
    simp [List.isPrefixOf]
  have h4 : ("```json").data.isPrefixOf ('\n' :: X) = false := by
    simp [List.isPrefixOf]
  rw [show removeLitWsAux ("```json").data ('`' :: '`' :: '`' :: '\n' :: X) 0 =
        (if ("```json").data.isPrefixOf ('`' :: '`' :: '`' :: '\n' :: X) then
          removeLitWsAux ("```json").data ('`' :: '`' :: '\n' :: X)
            (litWsMatchLen ("```json").data ('`' :: '`' :: '`' :: '\n' :: X) - 1)
        else '`' :: removeLitWsAux ("```json").data ('`' :: '`' :: '\n' :: X) 0) from rfl]
  rw [h1]
  simp only [Bool.false_eq_true, if_false]
  rw [show removeLitWsAux ("```json").data ('`' :: '`' :: '\n' :: X) 0 =
        (if ("```json").data.isPrefixOf ('`' :: '`' :: '\n' :: X) then
          removeLitWsAux ("```json").data ('`' :: '\n' :: X)
            (litWsMatchLen ("```json").data ('`' :: '`' :: '\n' :: X) - 1)
        else '`' :: removeLitWsAux ("```json").data ('`' :: '\n' :: X) 0) from rfl]
  rw [h2]
  simp only [Bool.false_eq_true, if_false]
  rw [show removeLitWsAux ("```json").data ('`' :: '\n' :: X) 0 =
        (if ("```json").data.isPrefixOf ('`' :: '\n' :: X) then
          removeLitWsAux ("```json").data ('\n' :: X)
            (litWsMatchLen ("```json").data ('`' :: '\n' :: X) - 1)
        else '`' :: removeLitWsAux ("```json").data ('\n' :: X) 0) from rfl]
  rw [h3]
  simp only [Bool.false_eq_true, if_false]
  rw [show removeLitWsAux ("```json").data ('\n' :: X) 0 =
        (if ("```json").data.isPrefixOf ('\n' :: X) then
          removeLitWsAux ("```json").data X
            (litWsMatchLen ("```json").data ('\n' :: X) - 1)
        else '\n' :: removeLitWsAux ("```json").data X 0) from rfl]
  rw [h4]
  simp only [Bool.false_eq_true, if_false]

/-- Helper for C2: stripping a ```` ```json ```` fence around a backtick-free
object text leaves the object plus a trailing newline. -/
theorem strip_json_fence (mid2 : List Char) (hnb : ∀ x ∈ ('{' :: mid2), x ≠ '`') :
    stripFences (("```json\n").data ++ ('{' :: mid2) ++ ("\n```").data) = ('{' :: mid2) ++ ['\n'] := by
  unfold stripFences removeLitWs
  have e0 : ("```json\n").data ++ ('{' :: mid2) ++ ("\n```").data =
      '`' :: '`' :: '`' :: 'j' :: 's' :: 'o' :: 'n' :: '\n' :: '{' :: (mid2 ++ ("\n```").data) := by
    simp
  rw [e0, removeJsonMarker (mid2 ++ ("\n```").data)]
  have hj : ("```json").data = '`' :: ("``json").data := rfl
  have ht : ("```").data = '`' :: ("``").data := rfl
  have e1 : ('{' :: (mid2 ++ ("\n```").data)) = ('{' :: mid2) ++ ("\n```").data := by simp
  rw [e1, hj, removeLitWsAux_append ("``json").data ('{' :: mid2) _ hnb]
  have e2 : removeLitWsAux ('`' :: ("``json").data) (("\n```").data) 0 = ("\n```").data := by decide
  rw [e2, ht, removeLitWsAux_append ("``").data ('{' :: mid2) _ hnb]
  have e3 : removeLitWsAux ('`' :: ("``").data) (("\n```").data) 0 = ['\n'] := by decide
  rw [e3]

/-- Helper for C2: stripping a plain ```` ``` ```` fence around a
backtick-free object text leaves the object plus a trailing newline. -/
theorem strip_plain_fence (mid2 : List Char) (hnb : ∀ x ∈ ('{' :: mid2), x ≠ '`') :
    stripFences (("```\n").data ++ ('{' :: mid2) ++ ("\n```").data) = ('{' :: mid2) ++ ['\n'] := by
  unfold stripFences removeLitWs
  have e0 : ("```\n").data ++ ('{' :: mid2) ++ ("\n```").data =
      '`' :: '`' :: '`' :: '\n' :: (('{' :: mid2) ++ ("\n```").data) := by
    simp
  rw [e0, removeJsonPlainFence (('{' :: mid2) ++ ("\n```").data)]
  have hj : ("```json").data = '`' :: ("``json").data := rfl
  have ht : ("```").data = '`' :: ("``").data := rfl
  rw [hj, removeLitWsAux_append ("``json").data ('{' :: mid2) _ hnb]
  have e2 : removeLitWsAux ('`' :: ("``json").data) (("\n```").data) 0 = ("\n```").data := by decide
  rw [e2]
  have e1 : ('`' :: '`' :: '`' :: '\n' :: (('{' :: mid2) ++ ("\n```").data)) =
      '`' :: '`' :: '`' :: '\n' :: '{' :: (mid2 ++ ("\n```").data) := by simp
  rw [e1, ht, removeTicksMarker (mid2 ++ ("\n```").data)]
  have e3 : ('{' :: (mid2 ++ ("\n```").data)) = ('{' :: mid2) ++ ("\n```").data := by simp
  rw [e3, removeLitWsAux_append ("``").data ('{' :: mid2) _ hnb]
  have e4 : removeLitWsAux ('`' :: ("``").data) (("\n```").data) 0 = ['\n'] := by decide
  rw [e4]

/-- Helper for C2: the strict JSON reader rejects any text whose first
character is a backtick. -/
theorem parseJsonValue_backtick (cs : List Char) : ∀ fuel, parseJsonValue fuel ('`' :: cs) = none := by
  intro fuel
  cases fuel with
  | zero => rfl
  | succ fuel =>
    unfold parseJsonValue
    have hdw : ('`' :: cs).dropWhile isJsonWs = '`' :: cs :=
      List.dropWhile_cons_of_neg (by simp [isJsonWs])
    rw [hdw]
    split
    · simp_all
    · simp_all
    · simp_all
    · simp_all
    · simp_all
    · simp_all
    · simp_all
    · next c rest heq =>
      injection heq with h1 _
      subst h1
      rw [if_neg (by simp [isDigitChar])]

/-- Helper for C2: `json.Unmarshal` fails on fence-wrapped text. -/
theorem decode_backtick (cs : List Char) : decodeInvoiceDTO ('`' :: cs) = none := by
  unfold decodeInvoiceDTO parseJson
  rw [parseJsonValue_backtick]
  rfl

/-- C2 (amended): for a completion text that is itself a valid strict JSON
object (written as `\x7b` mid `\x7d` and containing no backtick), the
pipeline's resulting invoice is identical whether the text is additionally
wrapped in ```` ```json ```` or ```` ``` ```` code fences, or surrounded by
prose that contains no braces or backticks (and itself defeats direct
decoding). Without those restrictions the claim fails: see the
counterexample, where prose containing a `\x7d` changes the result. -/
theorem stagePrecedenceUnderWrapping (mid : List Char) (dto : InvoiceDTO)
    (hdto : decodeInvoiceDTO ('{' :: mid ++ ['}']) = some dto)
    (hnb : ∀ x ∈ ('{' :: mid ++ ['}']), x ≠ '`') :
    (parseCompletion (("```json\n").data ++ ('{' :: mid ++ ['}']) ++ ("\n```").data) =
       parseCompletion ('{' :: mid ++ ['}'])) ∧
    (parseCompletion (("```\n").data ++ ('{' :: mid ++ ['}']) ++ ("\n```").data) =
       parseCompletion ('{' :: mid ++ ['}'])) ∧
    (∀ pre post, (∀ x ∈ pre, x ≠ '{' ∧ x ≠ '}' ∧ x ≠ '`') →
       (∀ x ∈ post, x ≠ '{' ∧ x ≠ '}' ∧ x ≠ '`') →
       decodeInvoiceDTO (pre ++ ('{' :: mid ++ ['}']) ++ post) = none →
       parseCompletion (pre ++ ('{' :: mid ++ ['}']) ++ post) =
         parseCompletion ('{' :: mid ++ ['}'])) := by
  have hbase : parseCompletion ('{' :: mid ++ ['}']) = Except.ok (buildInvoice dto) := by
    unfold parseCompletion
    rw [hdto]
  have hspan : braceSpan (('{' :: mid ++ ['}']) ++ ['\n']) = some ('{' :: mid ++ ['}']) := by
    have := braceSpan_wrap [] mid ['\n'] (by simp) (by simp)
    simpa using this
  refine ⟨?_, ?_, ?_⟩
  · have hdec : decodeInvoiceDTO (("```json\n").data ++ ('{' :: mid ++ ['}']) ++ ("\n```").data) = none := by
      have e0 : ("```json\n").data ++ ('{' :: mid ++ ['}']) ++ ("\n```").data =
          '`' :: ('`' :: '`' :: 'j' :: 's' :: 'o' :: 'n' :: '\n' :: '{' :: (mid ++ ['}'] ++ ("\n```").data)) := by
        simp
      rw [e0, decode_backtick]
    rw [hbase]
    unfold parseCompletion
    rw [hdec]
    unfold extractJSONWithRegex
    rw [show (("```json\n").data ++ ('{' :: mid ++ ['}']) ++ ("\n```").data) =
          (("```json\n").data ++ ('{' :: (mid ++ ['}'])) ++ ("\n```").data) from by simp]
    rw [strip_json_fence (mid ++ ['}']) (fun x hx => hnb x (by simpa using hx))]
    rw [show ('{' :: (mid ++ ['}'])) ++ ['\n'] = ('{' :: mid ++ ['}']) ++ ['\n'] from by simp]
    rw [hspan]
    show (match decodeInvoiceDTO ('{' :: mid ++ ['}']) with
          | some dto => Except.ok (buildInvoice dto)
          | none => regexRecoverStage (('{' :: mid ++ ['}']) ++ ['\n'])) = Except.ok (buildInvoice dto)
    rw [hdto]
  · have hdec : decodeInvoiceDTO (("```\n").data ++ ('{' :: mid ++ ['}']) ++ ("\n```").data) = none := by
      have e0 : ("```\n").data ++ ('{' :: mid ++ ['}']) ++ ("\n```").data =
          '`' :: ('`' :: '`' :: '\n' :: (('{' :: mid ++ ['}']) ++ ("\n```").data)) := by
        simp
      rw [e0, decode_backtick]
    rw [hbase]
    unfold parseCompletion
    rw [hdec]
    unfold extractJSONWithRegex
    rw [show (("```\n").data ++ ('{' :: mid ++ ['}']) ++ ("\n```").data) =
          (("```\n").data ++ ('{' :: (mid ++ ['}'])) ++ ("\n```").data) from by simp]
    rw [strip_plain_fence (mid ++ ['}']) (fun x hx => hnb x (by simpa using hx))]
    rw [show ('{' :: (mid ++ ['}'])) ++ ['\n'] = ('{' :: mid ++ ['}']) ++ ['\n'] from by simp]
    rw [hspan]
    show (match decodeInvoiceDTO ('{' :: mid ++ ['}']) with
          | some dto => Except.ok (buildInvoice dto)
          | none => regexRecoverStage (('{' :: mid ++ ['}']) ++ ['\n'])) = Except.ok (buildInvoice dto)
    rw [hdto]
  · intro pre post hpre hpost hdec
    rw [hbase]
    unfold parseCompletion
    rw [hdec]
    unfold extractJSONWithRegex
    have hstrip : stripFences (pre ++ ('{' :: mid ++ ['}']) ++ post) =
        pre ++ ('{' :: mid ++ ['}']) ++ post := by
      have hnb2 : ∀ x ∈ pre ++ ('{' :: mid ++ ['}']) ++ post, x ≠ '`' := by
        intro x hx
        rcases List.mem_append.mp hx with hx1 | hx2
        · rcases List.mem_append.mp hx1 with hx3 | hx4
          · exact (hpre x hx3).2.2
          · exact hnb x hx4
        · exact (hpost x hx2).2.2
      unfold stripFences
      have hj : ("```json").data = '`' :: ("``json").data := rfl
      have ht : ("```").data = '`' :: ("``").data := rfl
      rw [hj, ht, removeLitWs_id_of_no_backtick _ _ hnb2, removeLitWs_id_of_no_backtick _ _ hnb2]
    rw [hstrip]
    rw [braceSpan_wrap pre mid post (fun x hx => ⟨(hpre x hx).1, (hpre x hx).2.1⟩)
      (fun x hx => ⟨(hpost x hx).1, (hpost x hx).2.1⟩)]
    show (match decodeInvoiceDTO ('{' :: mid ++ ['}']) with
          | some dto => Except.ok (buildInvoice dto)
          | none => regexRecoverStage (pre ++ ('{' :: mid ++ ['}']) ++ post)) = Except.ok (buildInvoice dto)
    rw [hdto]


unseal Rat.add Rat.mul Rat.inv Nat.gcd in
/-- Witness for C2: the spec's fenced example — the Acme object wrapped in
```` ```json ```` fences — yields the same invoice as the bare object, with
vendor name "Acme". -/
theorem stagePrecedenceUnderWrapping_witness :
    parseCompletion (("```json\n").data ++ ('{' :: ("\"vendor_name\":\"Acme\",\"total_due\":79.18").data ++ ['}']) ++ ("\n```").data) =
      parseCompletion ('{' :: ("\"vendor_name\":\"Acme\",\"total_due\":79.18").data ++ ['}']) ∧
    (parseCompletion (("```json\n").data ++ ('{' :: ("\"vendor_name\":\"Acme\",\"total_due\":79.18").data ++ ['}']) ++ ("\n```").data)).toOption.map Invoice.vendorName =
      some ("Acme").data := by
  have h := (stagePrecedenceUnderWrapping ("\"vendor_name\":\"Acme\",\"total_due\":79.18").data
    { vendorName := ("Acme").data, totalDue := 7918/100 } (by decide) (by decide)).1
  refine ⟨h, ?_⟩
  rw [h]
  decide

unseal Rat.add Rat.mul Rat.inv Nat.gcd in
/-- Counterexample for C2: a valid strict JSON completion whose `discount`
is `-5`; surrounded by prose containing a closing brace, the brace span is
no longer valid JSON, the field-level recovery cannot capture the negative
number, and the resulting invoice differs (discount 0 instead of -5). -/
theorem stagePrecedenceUnderWrapping_counterexample :
    ((decodeInvoiceDTO ("\x7b\"vendor_name\":\"A\",\"discount\":-5\x7d").data).isSome = true) ∧
    ((parseCompletion ("\x7b\"vendor_name\":\"A\",\"discount\":-5\x7d").data).toOption.map Invoice.discount = some (-5)) ∧
    ((parseCompletion (("\x7b\"vendor_name\":\"A\",\"discount\":-5\x7d").data ++ (" ok\x7d").data)).toOption.map Invoice.discount = some 0) ∧
    ((-5 : ℚ) ≠ 0) := by
  refine ⟨by decide, by decide, by decide, by norm_num⟩


end ReceiptScanner
